import Mathlib

/-!
Verification development for the orbit-based correlation/interaction evaluator
of the smol repository (`smol/utils/cluster_utils/evaluator.pyx`).

The Cython extension type `ClusterSpaceEvaluator` is shallow-embedded here:

* C `double` values are modelled by `ℚ` (exact arithmetic; the source performs
  only `+`, `-`, `*`, `/` on them, and in ℚ division by zero is total with
  `x / 0 = 0`, which stands in for the IEEE non-signalling division of the
  source — neither raises an error).
* occupancy codes and the `tensor_indices` multipliers are nonnegative machine
  integers in the source (encoded species indices / mixed-radix multipliers),
  modelled by `Nat`.
* the flat C arrays with their `size_r`/`size_c` shape fields are modelled by
  Lean structures holding a flat `List` plus the two sizes; every element
  access `arr.data[p]` of the source becomes `arr.data.getD p 0`.
* each of the four `cpdef` routines builds its output by allocating a zero
  vector, writing the empty-cluster slot, and then performing one in-place
  slot write per orbit output value; these writes are modelled explicitly as a
  left fold of `List.set` over the list of (slot, value) pairs, in the same
  order the source's orbit loop produces them.  The source runs the orbit
  loop as a Cython `prange`; the sequential fold in orbit order is the
  reference semantics, and order-independence is proved, not assumed.
-/

namespace Smol

/-- Model of the C struct `FloatArray1D`: a flat array of doubles. -/
structure FloatArray1D where
  data : List ℚ

/-- Model of the C struct `FloatArray2D` (used for `correlation_tensors`):
a flat row-major array of doubles with `size_r` rows and `size_c` columns. -/
structure FloatArray2D where
  size_r : Nat
  size_c : Nat
  data : List ℚ

/-- Model of the C struct `IntArray2D` (a per-orbit cluster-index table):
a flat row-major array with `size_r` rows (cluster instances) and `size_c`
columns (sites per cluster), entries are lattice-site indices. -/
structure IntArray2D where
  size_r : Nat
  size_c : Nat
  data : List Nat

/-- Model of the C struct `OrbitC`. -/
structure OrbitC where
  id : Nat
  bit_id : Nat
  tensor_indices : List Nat
  correlation_tensors : FloatArray2D

/-- Default value standing in for an uninitialized `IntArray2D`. -/
def emptyIntArray2D : IntArray2D := ⟨0, 0, []⟩

/-- Default value standing in for an uninitialized `FloatArray1D`. -/
def emptyFloatArray1D : FloatArray1D := ⟨[]⟩

/-- Default value standing in for an uninitialized `OrbitC`. -/
def emptyOrbit : OrbitC := ⟨0, 0, [], ⟨0, 0, []⟩⟩

/-- Model of the `ClusterSpaceEvaluator` extension type's state: the orbit
data held by the `OrbitContainer` base class (`data`, with `size` the number
of orbits), the `num_orbits`, `num_corr` and `offset` fields, and the
`FloatArray1DContainer` of flattened cluster interaction tensors. -/
structure ClusterSpaceEvaluator where
  data : List OrbitC
  num_orbits : Nat
  num_corr : Nat
  offset : ℚ
  cluster_interactions : List FloatArray1D

/-- `self.size` of the underlying `OrbitContainer`: the number of orbit
records held. -/
def ClusterSpaceEvaluator.size (ev : ClusterSpaceEvaluator) : Nat :=
  ev.data.length

/-- `data[2].sum(axis=0)` of `__cinit__`'s default branch: sum the `K` basis
rows of a correlation tensor into one flattened tensor of length `size_c`. -/
def sumTensorRows (T : FloatArray2D) : FloatArray1D :=
  ⟨(List.range T.size_c).map (fun m =>
    ((List.range T.size_r).map (fun k => T.data.getD (k * T.size_c + m) 0)).sum)⟩

/-- Model of `ClusterSpaceEvaluator.__cinit__` (evaluator.pyx lines 30-44).
When `cluster_interaction_tensors` is `none` the default tensors are the
row-sums of each orbit's correlation tensors; when supplied, the given
tensors are stored as-is — the constructor performs no count check. -/
def mkClusterSpaceEvaluator (orbit_data : List OrbitC) (num_orbits num_corr : Nat)
    (offset : ℚ) (cluster_interaction_tensors : Option (List FloatArray1D)) :
    ClusterSpaceEvaluator :=
  { data := orbit_data
    num_orbits := num_orbits
    num_corr := num_corr
    offset := offset
    cluster_interactions :=
      match cluster_interaction_tensors with
      | none => orbit_data.map (fun o => sumTensorRows o.correlation_tensors)
      | some ts => ts }

/-- Model of `ClusterSpaceEvaluator.set_cluster_interactions`
(evaluator.pyx lines 46-62): raise `ValueError` when the number of supplied
tensors differs from the number of orbits, otherwise replace the stored
interaction tensors and offset.  The raised exception is modelled by
`Except.error`; on error no updated state is produced. -/
def set_cluster_interactions (ev : ClusterSpaceEvaluator)
    (cluster_interaction_tensors : List FloatArray1D) (offset : ℚ) :
    Except String ClusterSpaceEvaluator :=
  if cluster_interaction_tensors.length ≠ ev.size then
    Except.error
      ("Number of cluster interaction tensors must be equal to the number of orbits.")
  else
    Except.ok { ev with
      cluster_interactions := cluster_interaction_tensors
      offset := offset }

/-- `indices.data[j * I + i]`: the lattice-site index at row `j`, position `i`
of a cluster-index table. -/
def siteIndex (indices : IntArray2D) (j i : Nat) : Nat :=
  indices.data.getD (j * indices.size_c + i) 0

/-- The flattened tensor index of cluster row `j` under occupancy `occu`:
the inner accumulation `index = index + tensor_indices.data[i] * occu[...]`
of all four routines (mixed-radix composition over the `I` member sites). -/
def flatIndex (o : OrbitC) (indices : IntArray2D) (occu : List Nat) (j : Nat) : Nat :=
  ((List.range indices.size_c).map
    (fun i => o.tensor_indices.getD i 0 * occu.getD (siteIndex indices j i) 0)).sum

/-- The value stored to slot `bit_id + k` by `correlations_from_occupancy`:
sum over the `J` cluster rows of `correlation_tensors.data[k * N + index]`,
divided by `J`. -/
def corrValue (o : OrbitC) (indices : IntArray2D) (occu : List Nat) (k : Nat) : ℚ :=
  (((List.range indices.size_r).map (fun j =>
      o.correlation_tensors.data.getD
        (k * o.correlation_tensors.size_c + flatIndex o indices occu j) 0)).sum)
    / (indices.size_r : ℚ)

/-- One in-place slot write `o_view[s] = v` of the source, as a pair. -/
def applyWrites (ws : List (Nat × ℚ)) (l : List ℚ) : List ℚ :=
  ws.foldl (fun acc w => acc.set w.1 w.2) l

/-- The (slot, value) writes performed by orbit `n`'s iteration of
`correlations_from_occupancy`: slot `bit_id + k` receives `corrValue … k`
for each `k < K`. -/
def corrWrites (ev : ClusterSpaceEvaluator) (occu : List Nat)
    (cluster_indices : List IntArray2D) (n : Nat) : List (Nat × ℚ) :=
  (List.range (ev.data.getD n emptyOrbit).correlation_tensors.size_r).map
    (fun k => ((ev.data.getD n emptyOrbit).bit_id + k,
      corrValue (ev.data.getD n emptyOrbit)
        (cluster_indices.getD n emptyIntArray2D) occu k))

/-- `correlations_from_occupancy` with the orbit loop run in the order given
by `order` (the source's `prange` schedules orbits in an unspecified order;
the write set of each orbit is the same for every schedule). -/
def correlationsWithOrbitOrder (ev : ClusterSpaceEvaluator) (occu : List Nat)
    (cluster_indices : List IntArray2D) (order : List Nat) : List ℚ :=
  applyWrites ((order.map (corrWrites ev occu cluster_indices)).flatten)
    ((List.replicate ev.num_corr 0).set 0 1)

/-- Model of `ClusterSpaceEvaluator.correlations_from_occupancy`
(evaluator.pyx lines 64-110): allocate `np.zeros(num_corr)`, set slot 0 to 1
(empty cluster), then for each orbit `n` write slot `bit_id + k` with the
`J`-averaged tensor lookup for each bit combination `k`. -/
def correlations_from_occupancy (ev : ClusterSpaceEvaluator) (occu : List Nat)
    (cluster_indices : List IntArray2D) : List ℚ :=
  correlationsWithOrbitOrder ev occu cluster_indices (List.range ev.size)

/-- The value stored to slot `orbit.id` by `interactions_from_occupancy`:
sum over the `J` cluster rows of `interaction_tensor.data[index]`, divided
by `J`. -/
def interactionValue (ev : ClusterSpaceEvaluator) (occu : List Nat)
    (cluster_indices : List IntArray2D) (n : Nat) : ℚ :=
  (((List.range (cluster_indices.getD n emptyIntArray2D).size_r).map (fun j =>
      (ev.cluster_interactions.getD n emptyFloatArray1D).data.getD
        (flatIndex (ev.data.getD n emptyOrbit)
          (cluster_indices.getD n emptyIntArray2D) occu j) 0)).sum)
    / ((cluster_indices.getD n emptyIntArray2D).size_r : ℚ)

/-- The single (slot, value) write performed by orbit `n`'s iteration of
`interactions_from_occupancy`. -/
def interactionWrites (ev : ClusterSpaceEvaluator) (occu : List Nat)
    (cluster_indices : List IntArray2D) (n : Nat) : List (Nat × ℚ) :=
  [((ev.data.getD n emptyOrbit).id, interactionValue ev occu cluster_indices n)]

/-- `interactions_from_occupancy` with the orbit loop run in the order given
by `order`. -/
def interactionsWithOrbitOrder (ev : ClusterSpaceEvaluator) (occu : List Nat)
    (offset : ℚ) (cluster_indices : List IntArray2D) (order : List Nat) : List ℚ :=
  applyWrites ((order.map (interactionWrites ev occu cluster_indices)).flatten)
    ((List.replicate ev.num_orbits 0).set 0 offset)

/-- Model of `ClusterSpaceEvaluator.interactions_from_occupancy`
(evaluator.pyx lines 112-154): allocate `np.zeros(num_orbits)`, set slot 0 to
the caller-supplied `offset`, then for each orbit write slot `orbit.id` with
the `J`-averaged flattened interaction tensor lookup. -/
def interactions_from_occupancy (ev : ClusterSpaceEvaluator) (occu : List Nat)
    (offset : ℚ) (cluster_indices : List IntArray2D) : List ℚ :=
  interactionsWithOrbitOrder ev occu offset cluster_indices (List.range ev.size)

/-- The value stored to slot `bit_id + k` by
`delta_correlations_from_occupancies`: the sum over the `J` cluster rows of
the difference of the two tensor lookups, divided first by `cluster_ratio[n]`
and then by `J` (source expression `p / cluster_ratio[n] / J`). -/
def deltaCorrValue (o : OrbitC) (indices : IntArray2D) (occu_f occu_i : List Nat)
    (ratio_n : ℚ) (k : Nat) : ℚ :=
  (((List.range indices.size_r).map (fun j =>
      o.correlation_tensors.data.getD
        (k * o.correlation_tensors.size_c + flatIndex o indices occu_f j) 0
      - o.correlation_tensors.data.getD
        (k * o.correlation_tensors.size_c + flatIndex o indices occu_i j) 0)).sum)
    / ratio_n / (indices.size_r : ℚ)

/-- The (slot, value) writes performed by orbit `n`'s iteration of
`delta_correlations_from_occupancies`. -/
def deltaCorrWrites (ev : ClusterSpaceEvaluator) (occu_f occu_i : List Nat)
    (ratios : List ℚ) (cluster_indices : List IntArray2D) (n : Nat) :
    List (Nat × ℚ) :=
  (List.range (ev.data.getD n emptyOrbit).correlation_tensors.size_r).map
    (fun k => ((ev.data.getD n emptyOrbit).bit_id + k,
      deltaCorrValue (ev.data.getD n emptyOrbit)
        (cluster_indices.getD n emptyIntArray2D) occu_f occu_i
        (ratios.getD n 0) k))

/-- `delta_correlations_from_occupancies` with the orbit loop run in the
order given by `order`. -/
def deltaCorrelationsWithOrbitOrder (ev : ClusterSpaceEvaluator)
    (occu_f occu_i : List Nat) (ratios : List ℚ)
    (cluster_indices : List IntArray2D) (order : List Nat) : List ℚ :=
  applyWrites ((order.map (deltaCorrWrites ev occu_f occu_i ratios cluster_indices)).flatten)
    (List.replicate ev.num_corr 0)

/-- Model of `ClusterSpaceEvaluator.delta_correlations_from_occupancies`
(evaluator.pyx lines 156-209): allocate `np.zeros(num_corr)` (slot 0 left at
0), then for each orbit write slot `bit_id + k` with the difference sum
divided by `cluster_ratio[n]` and `J`. -/
def delta_correlations_from_occupancies (ev : ClusterSpaceEvaluator)
    (occu_f occu_i : List Nat) (ratios : List ℚ)
    (cluster_indices : List IntArray2D) : List ℚ :=
  deltaCorrelationsWithOrbitOrder ev occu_f occu_i ratios cluster_indices
    (List.range ev.size)

/-- The value stored to slot `orbit.id` by
`delta_interactions_from_occupancies`. -/
def deltaInteractionValue (ev : ClusterSpaceEvaluator) (occu_f occu_i : List Nat)
    (ratios : List ℚ) (cluster_indices : List IntArray2D) (n : Nat) : ℚ :=
  (((List.range (cluster_indices.getD n emptyIntArray2D).size_r).map (fun j =>
      (ev.cluster_interactions.getD n emptyFloatArray1D).data.getD
        (flatIndex (ev.data.getD n emptyOrbit)
          (cluster_indices.getD n emptyIntArray2D) occu_f j) 0
      - (ev.cluster_interactions.getD n emptyFloatArray1D).data.getD
        (flatIndex (ev.data.getD n emptyOrbit)
          (cluster_indices.getD n emptyIntArray2D) occu_i j) 0)).sum)
    / ratios.getD n 0 / ((cluster_indices.getD n emptyIntArray2D).size_r : ℚ)

/-- The single (slot, value) write performed by orbit `n`'s iteration of
`delta_interactions_from_occupancies`. -/
def deltaInteractionWrites (ev : ClusterSpaceEvaluator) (occu_f occu_i : List Nat)
    (ratios : List ℚ) (cluster_indices : List IntArray2D) (n : Nat) :
    List (Nat × ℚ) :=
  [((ev.data.getD n emptyOrbit).id,
    deltaInteractionValue ev occu_f occu_i ratios cluster_indices n)]

/-- `delta_interactions_from_occupancies` with the orbit loop run in the
order given by `order`. -/
def deltaInteractionsWithOrbitOrder (ev : ClusterSpaceEvaluator)
    (occu_f occu_i : List Nat) (ratios : List ℚ)
    (cluster_indices : List IntArray2D) (order : List Nat) : List ℚ :=
  applyWrites
    ((order.map (deltaInteractionWrites ev occu_f occu_i ratios cluster_indices)).flatten)
    (List.replicate ev.num_orbits 0)

/-- Model of `ClusterSpaceEvaluator.delta_interactions_from_occupancies`
(evaluator.pyx lines 211-260): allocate `np.zeros(num_orbits)` (slot 0 left
at 0), then for each orbit write slot `orbit.id` with the difference sum
divided by `cluster_ratio[n]` and `J`. -/
def delta_interactions_from_occupancies (ev : ClusterSpaceEvaluator)
    (occu_f occu_i : List Nat) (ratios : List ℚ)
    (cluster_indices : List IntArray2D) : List ℚ :=
  deltaInteractionsWithOrbitOrder ev occu_f occu_i ratios cluster_indices
    (List.range ev.size)

/-- The statically-known output slots of the two correlation routines, orbit
by orbit: orbit `n` owns the contiguous range `bit_id n, …, bit_id n + K - 1`
where `K` is its number of bit combinations. -/
def corrSlots (ev : ClusterSpaceEvaluator) : List Nat :=
  ((List.range ev.size).map (fun n =>
    (List.range (ev.data.getD n emptyOrbit).correlation_tensors.size_r).map
      (fun k => (ev.data.getD n emptyOrbit).bit_id + k))).flatten

/-- The statically-known output slots of the two interaction routines, orbit
by orbit: orbit `n` owns the single slot `orbit.id`. -/
def interactionSlots (ev : ClusterSpaceEvaluator) : List Nat :=
  (List.range ev.size).map (fun n => (ev.data.getD n emptyOrbit).id)

/-- A flattened cluster interaction tensor derived from an orbit's
correlation tensors by coefficient-weighted summation of the basis rows:
entry `m` is `Σ_k coeffs[bit_id + k] * correlation_tensors[k][m]`.  (The
`__cinit__` default `data[2].sum(axis=0)` is the all-coefficients-one case.) -/
def interactionTensor (o : OrbitC) (coeffs : List ℚ) : FloatArray1D :=
  ⟨(List.range o.correlation_tensors.size_c).map (fun m =>
    ((List.range o.correlation_tensors.size_r).map (fun k =>
      coeffs.getD (o.bit_id + k) 0
        * o.correlation_tensors.data.getD (k * o.correlation_tensors.size_c + m) 0)).sum)⟩

/-- Positional dot product of two vectors. -/
def dotProduct (l1 l2 : List ℚ) : ℚ :=
  (List.zipWith (fun a b => a * b) l1 l2).sum

/-- Row `j` of a cluster-index table, recovered from the flat storage. -/
def rowOf (ind : IntArray2D) (j : Nat) : List Nat :=
  (List.range ind.size_c).map (fun i => ind.data.getD (j * ind.size_c + i) 0)

/-- The rows of a cluster-index table, in storage order. -/
def rowsOf (ind : IntArray2D) : List (List Nat) :=
  (List.range ind.size_r).map (rowOf ind)

/-- The flattened tensor index contributed by one cluster row, written as a
function of the row itself. -/
def flatRow (o : OrbitC) (occu : List Nat) (row : List Nat) : Nat :=
  ((List.range row.length).map
    (fun i => o.tensor_indices.getD i 0 * occu.getD (row.getD i 0) 0)).sum

/-- The cluster-index table of an `m`-fold replicated supercell built from a
unit cell of `S` sites: the table gains `m` copies of its rows, with all site
indices of replica `r` shifted by `r * S`. -/
def replicateTable (S m : Nat) (ind : IntArray2D) : IntArray2D :=
  ⟨m * ind.size_r, ind.size_c,
   ((List.range m).map (fun r => ind.data.map (fun x => x + r * S))).flatten⟩

/-- The occupancy of an `m`-fold replicated supercell: `m` concatenated
copies of the unit-cell occupancy. -/
def replicateOccu (m : Nat) (occu : List Nat) : List Nat :=
  (List.replicate m occu).flatten

/-- The divisors used by `correlations_from_occupancy`, in the order the
source divides by them: each of orbit `n`'s `K` slot writes divides once by
`J` (evaluator.pyx line 107), with no guard. -/
def corrDivisors (ev : ClusterSpaceEvaluator)
    (cluster_indices : List IntArray2D) : List ℚ :=
  ((List.range ev.size).map (fun n =>
    (List.range (ev.data.getD n emptyOrbit).correlation_tensors.size_r).map
      (fun _k => ((cluster_indices.getD n emptyIntArray2D).size_r : ℚ)))).flatten

/-- The divisors used by `interactions_from_occupancy`: orbit `n`'s single
slot write divides once by `J` (evaluator.pyx line 152), with no guard. -/
def interactionDivisors (ev : ClusterSpaceEvaluator)
    (cluster_indices : List IntArray2D) : List ℚ :=
  (List.range ev.size).map
    (fun n => ((cluster_indices.getD n emptyIntArray2D).size_r : ℚ))

/-- The divisors used by `delta_correlations_from_occupancies`: each of orbit
`n`'s `K` slot writes divides by `cluster_ratio[n]` and then by `J`
(evaluator.pyx line 206), with no guard on either. -/
def deltaCorrDivisors (ev : ClusterSpaceEvaluator) (ratios : List ℚ)
    (cluster_indices : List IntArray2D) : List ℚ :=
  ((List.range ev.size).map (fun n =>
    ((List.range (ev.data.getD n emptyOrbit).correlation_tensors.size_r).map
      (fun _k => [ratios.getD n 0,
        ((cluster_indices.getD n emptyIntArray2D).size_r : ℚ)])).flatten)).flatten

/-- The divisors used by `delta_interactions_from_occupancies`: orbit `n`'s
single slot write divides by `cluster_ratio[n]` and then by `J`
(evaluator.pyx line 259), with no guard on either. -/
def deltaInteractionDivisors (ev : ClusterSpaceEvaluator) (ratios : List ℚ)
    (cluster_indices : List IntArray2D) : List ℚ :=
  ((List.range ev.size).map (fun n =>
    [ratios.getD n 0,
     ((cluster_indices.getD n emptyIntArray2D).size_r : ℚ)])).flatten

/-! ### Concrete instances used to exercise the claims

`exOrbit` is the spec's concrete scenario: one orbit of cluster size 2,
`tensor_indices = [1, 2]`, one basis row with `correlation_tensors` a 1×4
table; `exTable` is its two-cluster index table `[[0, 1], [2, 3]]`. -/

def exOrbit : OrbitC := ⟨1, 1, [1, 2], ⟨1, 4, [10, 20, 30, 40]⟩⟩

def exEvaluator : ClusterSpaceEvaluator :=
  ⟨[exOrbit], 2, 2, 0, [⟨[10, 20, 30, 40]⟩]⟩

def exTable : IntArray2D := ⟨2, 2, [0, 1, 2, 3]⟩

/-- `exTable` with its two rows swapped. -/
def exTableSwapped : IntArray2D := ⟨2, 2, [2, 3, 0, 1]⟩

/-- A second orbit (a point orbit on site 0) for two-orbit instances. -/
def exOrbitB : OrbitC := ⟨2, 2, [1], ⟨1, 2, [5, 7]⟩⟩

def exEvaluator2 : ClusterSpaceEvaluator :=
  ⟨[exOrbit, exOrbitB], 3, 3, 0, [⟨[10, 20, 30, 40]⟩, ⟨[5, 7]⟩]⟩

def exTableB : IntArray2D := ⟨1, 1, [0]⟩

/-- Basis coefficients for the derived-interaction instance: slot 0 (the
constant term) carries no coefficient, the single basis function of
`exOrbit` has coefficient 3. -/
def exCoeffs : List ℚ := [0, 3]

/-- `exEvaluator` with its interaction tensors derived from `exCoeffs`. -/
def exEvaluatorDerived : ClusterSpaceEvaluator :=
  ⟨[exOrbit], 2, 2, 0, [exOrbit].map (fun o => interactionTensor o exCoeffs)⟩

/-- An orbit whose cluster-index table is empty (`J = 0`). -/
def exEmptyTable : IntArray2D := ⟨0, 2, []⟩

/-! ### Generic lemmas about slot writes -/

theorem applyWrites_nil (l : List ℚ) : applyWrites [] l = l := rfl

theorem applyWrites_cons (w : Nat × ℚ) (ws : List (Nat × ℚ)) (l : List ℚ) :
    applyWrites (w :: ws) l = applyWrites ws (l.set w.1 w.2) := rfl

theorem length_applyWrites (ws : List (Nat × ℚ)) (l : List ℚ) :
    (applyWrites ws l).length = l.length := by
  induction ws generalizing l with
  | nil => rfl
  | cons w ws ih => rw [applyWrites_cons, ih, List.length_set]

theorem getD_set_self {α : Type} (l : List α) (i : Nat) (v d : α)
    (h : i < l.length) : (l.set i v).getD i d = v := by
  rw [List.getD_eq_getElem?_getD, List.getElem?_set_self h]
  rfl

theorem getD_set_ne {α : Type} (l : List α) (i j : Nat) (v d : α)
    (h : i ≠ j) : (l.set i v).getD j d = l.getD j d := by
  rw [List.getD_eq_getElem?_getD, List.getElem?_set_ne h,
    ← List.getD_eq_getElem?_getD]

theorem getD_applyWrites_of_not_mem (ws : List (Nat × ℚ)) (l : List ℚ)
    (s : Nat) (h : ∀ w ∈ ws, w.1 ≠ s) :
    (applyWrites ws l).getD s 0 = l.getD s 0 := by
  induction ws generalizing l with
  | nil => rfl
  | cons w ws ih =>
    rw [applyWrites_cons, ih _ (fun u hu => h u (List.mem_cons_of_mem _ hu)),
      getD_set_ne _ _ _ _ _ (h w (List.mem_cons_self w ws))]

theorem getD_applyWrites_of_mem (ws : List (Nat × ℚ)) (l : List ℚ)
    (s : Nat) (v : ℚ) (hmem : (s, v) ∈ ws)
    (hpw : ws.Pairwise (fun a b => a.1 ≠ b.1)) (hs : s < l.length) :
    (applyWrites ws l).getD s 0 = v := by
  induction ws generalizing l with
  | nil => cases hmem
  | cons w ws ih =>
    rw [applyWrites_cons]
    rcases List.mem_cons.mp hmem with h | h
    · subst h
      rw [getD_applyWrites_of_not_mem _ _ _
        (fun u hu => ((List.pairwise_cons.mp hpw).1 u hu).symm)]
      exact getD_set_self _ _ _ _ hs
    · exact ih _ h (List.pairwise_cons.mp hpw).2 (by rwa [List.length_set])

theorem applyWrites_perm (ws ws' : List (Nat × ℚ)) (l : List ℚ)
    (hp : ws.Perm ws') (hpw : ws.Pairwise (fun a b => a.1 ≠ b.1)) :
    applyWrites ws l = applyWrites ws' l := by
  induction hp generalizing l with
  | nil => rfl
  | cons x _hp ih =>
    rw [applyWrites_cons, applyWrites_cons,
      ih _ (List.pairwise_cons.mp hpw).2]
  | swap x y t =>
    rw [applyWrites_cons, applyWrites_cons, applyWrites_cons, applyWrites_cons,
      List.set_comm _ _ _ ((List.pairwise_cons.mp hpw).1 x (List.mem_cons_self x t))]
  | trans h1 _h2 ih1 ih2 =>
    rw [ih1 _ hpw, ih2 _ (((List.Perm.pairwise_iff (fun h => h.symm)) h1).mp hpw)]

theorem sum_list_set (l : List ℚ) (i : Nat) (v : ℚ) (h : i < l.length) :
    (l.set i v).sum = l.sum - l.getD i 0 + v := by
  induction l generalizing i with
  | nil => simp at h
  | cons a t ih =>
    cases i with
    | zero =>
      simp only [List.set_cons_zero, List.sum_cons, List.getD_cons_zero]
      ring
    | succ i =>
      simp only [List.set_cons_succ, List.sum_cons, List.getD_cons_succ]
      rw [ih i (by simpa using h)]
      ring

theorem sum_applyWrites (ws : List (Nat × ℚ)) (l : List ℚ)
    (hpw : ws.Pairwise (fun a b => a.1 ≠ b.1))
    (hlt : ∀ w ∈ ws, w.1 < l.length)
    (hzero : ∀ w ∈ ws, l.getD w.1 0 = 0) :
    (applyWrites ws l).sum = l.sum + (ws.map Prod.snd).sum := by
  induction ws generalizing l with
  | nil => simp [applyWrites_nil]
  | cons w ws ih =>
    rw [applyWrites_cons,
      ih _ (List.pairwise_cons.mp hpw).2
        (fun u hu => by
          rw [List.length_set]; exact hlt u (List.mem_cons_of_mem _ hu))
        (fun u hu => by
          rw [getD_set_ne _ _ _ _ _ ((List.pairwise_cons.mp hpw).1 u hu)]
          exact hzero u (List.mem_cons_of_mem _ hu)),
      sum_list_set _ _ _ (hlt w (List.mem_cons_self w ws)),
      hzero w (List.mem_cons_self w ws)]
    simp [List.map_cons, List.sum_cons]
    ring

/-! ### Generic lemmas about pointwise combination of written vectors -/

theorem set_zipWith (f : ℚ → ℚ → ℚ) (la lb : List ℚ) (i : Nat) (x y : ℚ)
    (h : la.length = lb.length) :
    (List.zipWith f la lb).set i (f x y) = List.zipWith f (la.set i x) (lb.set i y) := by
  induction la generalizing lb i with
  | nil => simp
  | cons a ta ih =>
    cases lb with
    | nil => simp at h
    | cons b tb =>
      cases i with
      | zero => simp
      | succ i =>
        simp only [List.zipWith_cons_cons, List.set_cons_succ]
        rw [ih tb i (by simpa using h)]

theorem applyWrites_zipWith (f : ℚ → ℚ → ℚ) (ws : List (Nat × ℚ × ℚ))
    (la lb : List ℚ) (h : la.length = lb.length) :
    applyWrites (ws.map (fun w => (w.1, f w.2.1 w.2.2))) (List.zipWith f la lb)
      = List.zipWith f (applyWrites (ws.map (fun w => (w.1, w.2.1))) la)
          (applyWrites (ws.map (fun w => (w.1, w.2.2))) lb) := by
  induction ws generalizing la lb with
  | nil => rfl
  | cons w t ih =>
    simp only [List.map_cons, applyWrites_cons]
    rw [set_zipWith f la lb w.1 w.2.1 w.2.2 h]
    exact ih _ _ (by rw [List.length_set, List.length_set, h])

theorem getD_zipWith_of (f : ℚ → ℚ → ℚ) (hf : f 0 0 = 0) (la lb : List ℚ)
    (s : Nat) (h : la.length = lb.length) :
    (List.zipWith f la lb).getD s 0 = f (la.getD s 0) (lb.getD s 0) := by
  induction la generalizing lb s with
  | nil =>
    cases lb with
    | nil => simp [hf]
    | cons b tb => simp at h
  | cons a ta ih =>
    cases lb with
    | nil => simp at h
    | cons b tb =>
      cases s with
      | zero => simp
      | succ s =>
        simp only [List.zipWith_cons_cons, List.getD_cons_succ]
        exact ih tb s (by simpa using h)

theorem zipWith_mul_set_left (l c : List ℚ) (i : Nat) (v : ℚ)
    (h : l.length = c.length) :
    List.zipWith (fun a b => a * b) (l.set i v) c
      = (List.zipWith (fun a b => a * b) l c).set i (v * c.getD i 0) := by
  induction l generalizing c i with
  | nil => simp
  | cons a t ih =>
    cases c with
    | nil => simp at h
    | cons b tb =>
      cases i with
      | zero => simp
      | succ i =>
        simp only [List.set_cons_succ, List.zipWith_cons_cons, List.getD_cons_succ]
        rw [ih tb i (by simpa using h)]

theorem sum_zipWith_mul_applyWrites (ws : List (Nat × ℚ)) (l c : List ℚ)
    (hpw : ws.Pairwise (fun a b => a.1 ≠ b.1))
    (hlt : ∀ w ∈ ws, w.1 < l.length)
    (hzero : ∀ w ∈ ws, l.getD w.1 0 = 0)
    (hlen : l.length = c.length) :
    (List.zipWith (fun a b => a * b) (applyWrites ws l) c).sum
      = (List.zipWith (fun a b => a * b) l c).sum
        + (ws.map (fun w => w.2 * c.getD w.1 0)).sum := by
  induction ws generalizing l with
  | nil => simp [applyWrites_nil]
  | cons w t ih =>
    rw [applyWrites_cons,
      ih _ (List.pairwise_cons.mp hpw).2
        (fun u hu => by
          rw [List.length_set]; exact hlt u (List.mem_cons_of_mem _ hu))
        (fun u hu => by
          rw [getD_set_ne _ _ _ _ _ ((List.pairwise_cons.mp hpw).1 u hu)]
          exact hzero u (List.mem_cons_of_mem _ hu))
        (by rw [List.length_set, hlen]),
      zipWith_mul_set_left _ _ _ _ hlen,
      sum_list_set _ _ _
        (by
          rw [List.length_zipWith, ← hlen, Nat.min_self]
          exact hlt w (List.mem_cons_self w t)),
      getD_zipWith_of (fun a b => a * b) (by ring) _ _ _ hlen,
      hzero w (List.mem_cons_self w t)]
    simp only [List.map_cons, List.sum_cons]
    ring

/-! ### Lemmas about ranges, flattening and replication -/

theorem getD_list_map_range {α : Type} (n : Nat) (f : Nat → α) (i : Nat) (d : α) :
    ((List.range n).map f).getD i d = if i < n then f i else d := by
  by_cases h : i < n
  · rw [List.getD_eq_getElem?_getD, List.getElem?_map, List.getElem?_range h]
    simp [h]
  · rw [List.getD_eq_default _ _ (by simpa using Nat.le_of_not_lt h)]
    simp [h]

theorem getD_list_replicate {α : Type} (n : Nat) (a : α) (i : Nat) (d : α)
    (h : i < n) : (List.replicate n a).getD i d = a := by
  rw [List.getD_eq_getElem?_getD, List.getElem?_replicate]
  simp [h]

theorem sum_list_range_eq_finset {M : Type} [AddCommMonoid M] (n : Nat)
    (f : Nat → M) : ((List.range n).map f).sum = ∑ i ∈ Finset.range n, f i := by
  induction n with
  | zero => simp
  | succ n ih =>
    rw [List.range_succ, List.map_append, List.sum_append, Finset.sum_range_succ, ih]
    simp

theorem getD_flatten_uniform {α : Type} (ll : List (List α)) (L : Nat) (d : α)
    (h : ∀ l ∈ ll, l.length = L) (r p : Nat) (hr : r < ll.length) (hp : p < L) :
    ll.flatten.getD (r * L + p) d = (ll.getD r []).getD p d := by
  induction ll generalizing r with
  | nil => simp at hr
  | cons a t ih =>
    cases r with
    | zero =>
      rw [List.flatten_cons, Nat.zero_mul, Nat.zero_add,
        List.getD_append _ _ _ _ (by rw [h a (List.mem_cons_self a t)]; exact hp)]
      rfl
    | succ r =>
      have hlen : a.length = L := h a (List.mem_cons_self a t)
      have harith : (r + 1) * L + p - a.length = r * L + p := by
        rw [hlen, Nat.succ_mul, Nat.add_right_comm, Nat.add_sub_cancel]
      rw [List.flatten_cons,
        List.getD_append_right _ _ _ _
          (by rw [hlen, Nat.succ_mul]; omega),
        harith,
        ih (fun u hu => h u (List.mem_cons_of_mem _ hu)) r (by simpa using hr)]
      rfl

theorem sum_range_mul_blocks (m J : Nat) (f g : Nat → ℚ)
    (h : ∀ r < m, ∀ j < J, f (r * J + j) = g j) :
    ((List.range (m * J)).map f).sum = (m : ℚ) * ((List.range J).map g).sum := by
  induction m with
  | zero => simp
  | succ m ih =>
    have hm : (m + 1) * J = m * J + J := by rw [Nat.succ_mul]
    rw [hm, List.range_add, List.map_append, List.sum_append, List.map_map,
      ih (fun r hr j hj => h r (Nat.lt_succ_of_lt hr) j hj)]
    have hcong : (List.range J).map (f ∘ (fun x => m * J + x))
        = (List.range J).map g := by
      exact List.map_congr_left
        (fun j hj => h m (Nat.lt_succ_self m) j (List.mem_range.mp hj))
    rw [hcong]
    push_cast
    ring

/-! ### Lemmas about rows of cluster-index tables -/

theorem length_rowOf (ind : IntArray2D) (j : Nat) :
    (rowOf ind j).length = ind.size_c := by
  rw [rowOf, List.length_map, List.length_range]

theorem length_rowsOf (ind : IntArray2D) :
    (rowsOf ind).length = ind.size_r := by
  rw [rowsOf, List.length_map, List.length_range]

theorem getD_rowOf (ind : IntArray2D) (j i : Nat) (hi : i < ind.size_c) :
    (rowOf ind j).getD i 0 = ind.data.getD (j * ind.size_c + i) 0 := by
  rw [rowOf, getD_list_map_range]
  simp [hi]

theorem flatRow_rowOf (o : OrbitC) (ind : IntArray2D) (occu : List Nat)
    (j : Nat) : flatRow o occu (rowOf ind j) = flatIndex o ind occu j := by
  rw [flatRow, flatIndex, length_rowOf]
  exact congrArg List.sum (List.map_congr_left (fun i hi => by
    rw [getD_rowOf ind j i (List.mem_range.mp hi)]
    rfl))

theorem sum_over_rows (ind : IntArray2D) (F : List Nat → ℚ) :
    ((List.range ind.size_r).map (fun j => F (rowOf ind j))).sum
      = ((rowsOf ind).map F).sum := by
  rw [rowsOf, List.map_map]
  rfl

/-! ### Write-set bookkeeping -/

theorem fst_of_mem_corrWrites (ev : ClusterSpaceEvaluator) (occu : List Nat)
    (cluster_indices : List IntArray2D) (n : Nat) (w : Nat × ℚ)
    (hw : w ∈ corrWrites ev occu cluster_indices n) :
    ∃ k, k < (ev.data.getD n emptyOrbit).correlation_tensors.size_r
      ∧ w.1 = (ev.data.getD n emptyOrbit).bit_id + k := by
  obtain ⟨k, hk, hkw⟩ := List.mem_map.mp hw
  exact ⟨k, List.mem_range.mp hk, by rw [← hkw]⟩

theorem fst_of_mem_deltaCorrWrites (ev : ClusterSpaceEvaluator)
    (occu_f occu_i : List Nat) (ratios : List ℚ)
    (cluster_indices : List IntArray2D) (n : Nat) (w : Nat × ℚ)
    (hw : w ∈ deltaCorrWrites ev occu_f occu_i ratios cluster_indices n) :
    ∃ k, k < (ev.data.getD n emptyOrbit).correlation_tensors.size_r
      ∧ w.1 = (ev.data.getD n emptyOrbit).bit_id + k := by
  obtain ⟨k, hk, hkw⟩ := List.mem_map.mp hw
  exact ⟨k, List.mem_range.mp hk, by rw [← hkw]⟩

theorem flatten_map_singleton {α β : Type} (l : List α) (f : α → β) :
    ((l.map (fun x => [f x])).flatten) = l.map f := by
  induction l with
  | nil => rfl
  | cons a t ih => simp [ih]

theorem corrWrites_fst_flatten (ev : ClusterSpaceEvaluator) (occu : List Nat)
    (cluster_indices : List IntArray2D) :
    (((List.range ev.size).map (corrWrites ev occu cluster_indices)).flatten).map
        Prod.fst = corrSlots ev := by
  rw [corrSlots, List.map_flatten, List.map_map]
  exact congrArg List.flatten (List.map_congr_left (fun n _ => by
    simp [Function.comp, corrWrites, List.map_map]))

theorem deltaCorrWrites_fst_flatten (ev : ClusterSpaceEvaluator)
    (occu_f occu_i : List Nat) (ratios : List ℚ)
    (cluster_indices : List IntArray2D) :
    (((List.range ev.size).map
        (deltaCorrWrites ev occu_f occu_i ratios cluster_indices)).flatten).map
        Prod.fst = corrSlots ev := by
  rw [corrSlots, List.map_flatten, List.map_map]
  exact congrArg List.flatten (List.map_congr_left (fun n _ => by
    simp [Function.comp, deltaCorrWrites, List.map_map]))

theorem interactionWrites_fst_flatten (ev : ClusterSpaceEvaluator)
    (occu : List Nat) (cluster_indices : List IntArray2D) :
    (((List.range ev.size).map (interactionWrites ev occu cluster_indices)).flatten).map
        Prod.fst = interactionSlots ev := by
  rw [interactionSlots, List.map_flatten, List.map_map]
  have h : (List.range ev.size).map
        (List.map Prod.fst ∘ interactionWrites ev occu cluster_indices)
      = (List.range ev.size).map
        (fun n => [(ev.data.getD n emptyOrbit).id]) :=
    List.map_congr_left (fun n _ => by simp [Function.comp, interactionWrites])
  rw [h, flatten_map_singleton]

theorem deltaInteractionWrites_fst_flatten (ev : ClusterSpaceEvaluator)
    (occu_f occu_i : List Nat) (ratios : List ℚ)
    (cluster_indices : List IntArray2D) :
    (((List.range ev.size).map
        (deltaInteractionWrites ev occu_f occu_i ratios cluster_indices)).flatten).map
        Prod.fst = interactionSlots ev := by
  rw [interactionSlots, List.map_flatten, List.map_map]
  have h : (List.range ev.size).map
        (List.map Prod.fst ∘ deltaInteractionWrites ev occu_f occu_i ratios cluster_indices)
      = (List.range ev.size).map
        (fun n => [(ev.data.getD n emptyOrbit).id]) :=
    List.map_congr_left (fun n _ => by simp [Function.comp, deltaInteractionWrites])
  rw [h, flatten_map_singleton]

theorem pairwise_of_fst_map {α : Type} (ws : List (α × ℚ)) (slots : List α)
    (h : ws.map Prod.fst = slots) (hpw : slots.Pairwise (fun a b => a ≠ b)) :
    ws.Pairwise (fun a b => a.1 ≠ b.1) := by
  subst h
  exact List.pairwise_map.mp hpw

/-- C5: for every occupancy vector (and pair of occupancy vectors with any
cluster-ratio array), provided every orbit's `bit_id` is at least 1 and the
correlation vector has at least the empty-cluster slot, slot 0 of
`correlations_from_occupancy` equals 1 and slot 0 of
`delta_correlations_from_occupancies` equals 0. -/
theorem c5_corr_empty_cluster_slot (ev : ClusterSpaceEvaluator)
    (occu occu_f occu_i : List Nat) (ratios : List ℚ)
    (cluster_indices : List IntArray2D)
    (hcorr : 0 < ev.num_corr)
    (hbit : ∀ n, n < ev.size → 1 ≤ (ev.data.getD n emptyOrbit).bit_id) :
    (correlations_from_occupancy ev occu cluster_indices).getD 0 0 = 1
    ∧ (delta_correlations_from_occupancies ev occu_f occu_i ratios
        cluster_indices).getD 0 0 = 0 := by
  constructor
  · rw [correlations_from_occupancy, correlationsWithOrbitOrder,
      getD_applyWrites_of_not_mem _ _ _ (fun w hw => by
        obtain ⟨l, hl, hwl⟩ := List.mem_flatten.mp hw
        obtain ⟨n, hn, rfl⟩ := List.mem_map.mp hl
        obtain ⟨k, _, hwk⟩ := fst_of_mem_corrWrites _ _ _ _ _ hwl
        have := hbit n (List.mem_range.mp hn)
        omega)]
    exact getD_set_self _ _ _ _ (by simpa using hcorr)
  · rw [delta_correlations_from_occupancies, deltaCorrelationsWithOrbitOrder,
      getD_applyWrites_of_not_mem _ _ _ (fun w hw => by
        obtain ⟨l, hl, hwl⟩ := List.mem_flatten.mp hw
        obtain ⟨n, hn, rfl⟩ := List.mem_map.mp hl
        obtain ⟨k, _, hwk⟩ := fst_of_mem_deltaCorrWrites _ _ _ _ _ _ _ hwl
        have := hbit n (List.mem_range.mp hn)
        omega)]
    exact getD_list_replicate _ _ _ _ hcorr

/-- Witness for C5 at the concrete one-orbit instance. -/
theorem c5_corr_empty_cluster_slot_witness :
    (correlations_from_occupancy exEvaluator [0, 1, 1, 0] [exTable]).getD 0 0 = 1
    ∧ (delta_correlations_from_occupancies exEvaluator [0, 1, 1, 0] [0, 0, 0, 0]
        [1] [exTable]).getD 0 0 = 0 :=
  c5_corr_empty_cluster_slot exEvaluator [0, 1, 1, 0] [0, 1, 1, 0] [0, 0, 0, 0]
    [1] [exTable] (by decide) (by decide)

/-- C6: for every occupancy vector and caller-supplied offset, provided every
orbit's `id` is at least 1 and the interaction vector has at least the
empty-cluster slot, slot 0 of `interactions_from_occupancy` equals the offset
and slot 0 of `delta_interactions_from_occupancies` equals 0. -/
theorem c6_interaction_empty_cluster_slot (ev : ClusterSpaceEvaluator)
    (occu occu_f occu_i : List Nat) (offset : ℚ) (ratios : List ℚ)
    (cluster_indices : List IntArray2D)
    (hnum : 0 < ev.num_orbits)
    (hid : ∀ n, n < ev.size → 1 ≤ (ev.data.getD n emptyOrbit).id) :
    (interactions_from_occupancy ev occu offset cluster_indices).getD 0 0 = offset
    ∧ (delta_interactions_from_occupancies ev occu_f occu_i ratios
        cluster_indices).getD 0 0 = 0 := by
  constructor
  · rw [interactions_from_occupancy, interactionsWithOrbitOrder,
      getD_applyWrites_of_not_mem _ _ _ (fun w hw => by
        obtain ⟨l, hl, hwl⟩ := List.mem_flatten.mp hw
        obtain ⟨n, hn, rfl⟩ := List.mem_map.mp hl
        rw [List.mem_singleton.mp hwl]
        have := hid n (List.mem_range.mp hn)
        simp only []
        omega)]
    exact getD_set_self _ _ _ _ (by simpa using hnum)
  · rw [delta_interactions_from_occupancies, deltaInteractionsWithOrbitOrder,
      getD_applyWrites_of_not_mem _ _ _ (fun w hw => by
        obtain ⟨l, hl, hwl⟩ := List.mem_flatten.mp hw
        obtain ⟨n, hn, rfl⟩ := List.mem_map.mp hl
        rw [List.mem_singleton.mp hwl]
        have := hid n (List.mem_range.mp hn)
        simp only []
        omega)]
    exact getD_list_replicate _ _ _ _ hnum

/-- Witness for C6 at the concrete one-orbit instance. -/
theorem c6_interaction_empty_cluster_slot_witness :
    (interactions_from_occupancy exEvaluator [0, 1, 1, 0] 7 [exTable]).getD 0 0 = 7
    ∧ (delta_interactions_from_occupancies exEvaluator [0, 1, 1, 0] [0, 0, 0, 0]
        [1] [exTable]).getD 0 0 = 0 :=
  c6_interaction_empty_cluster_slot exEvaluator [0, 1, 1, 0] [0, 1, 1, 0]
    [0, 0, 0, 0] 7 [1] [exTable] (by decide) (by decide)

/-- C1: for every occupancy vector and every orbit `n` (with the orbits'
output slot ranges pairwise distinct and within bounds), output slot
`bit_id n + k` of `correlations_from_occupancy` holds the sum over the `J`
cluster rows of `correlation_tensors[k]` at the mixed-radix flattened index
`Σ_i tensor_indices[i] * occu[site index at row j, position i]`, divided by
`J`; and at the spec's concrete one-orbit instance (`tensor_indices = [1,2]`,
`correlation_tensors = [a,b,c,d]`, cluster rows `[[0,1],[2,3]]`, occupancy
`[0,1,1,0]`) the orbit's slot equals `(c + b) / 2`. -/
theorem c1_correlation_slot_formula :
    (∀ (ev : ClusterSpaceEvaluator) (occu : List Nat)
      (cluster_indices : List IntArray2D) (n k : Nat),
      (corrSlots ev).Pairwise (fun a b => a ≠ b) →
      (∀ s ∈ corrSlots ev, s < ev.num_corr) →
      n < ev.size →
      k < (ev.data.getD n emptyOrbit).correlation_tensors.size_r →
      (correlations_from_occupancy ev occu cluster_indices).getD
          ((ev.data.getD n emptyOrbit).bit_id + k) 0
        = (((List.range (cluster_indices.getD n emptyIntArray2D).size_r).map
            (fun j => (ev.data.getD n emptyOrbit).correlation_tensors.data.getD
              (k * (ev.data.getD n emptyOrbit).correlation_tensors.size_c
                + flatIndex (ev.data.getD n emptyOrbit)
                    (cluster_indices.getD n emptyIntArray2D) occu j) 0)).sum)
          / ((cluster_indices.getD n emptyIntArray2D).size_r : ℚ))
    ∧ (∀ a b c d : ℚ,
      (correlations_from_occupancy
        ⟨[⟨1, 1, [1, 2], ⟨1, 4, [a, b, c, d]⟩⟩], 2, 2, 0, [⟨[a, b, c, d]⟩]⟩
        [0, 1, 1, 0] [exTable]).getD 1 0 = (c + b) / 2) := by
  constructor
  · intro ev occu cluster_indices n k hpw hb hn hk
    rw [correlations_from_occupancy, correlationsWithOrbitOrder]
    exact getD_applyWrites_of_mem _ _ _ _
      (List.mem_flatten.mpr ⟨corrWrites ev occu cluster_indices n,
        List.mem_map_of_mem _ (List.mem_range.mpr hn),
        List.mem_map_of_mem _ (List.mem_range.mpr hk)⟩)
      (pairwise_of_fst_map _ _ (corrWrites_fst_flatten ev occu cluster_indices) hpw)
      (by
        rw [List.length_set, List.length_replicate]
        exact hb _ (List.mem_flatten.mpr
          ⟨(List.range (ev.data.getD n emptyOrbit).correlation_tensors.size_r).map
              (fun k => (ev.data.getD n emptyOrbit).bit_id + k),
            List.mem_map_of_mem _ (List.mem_range.mpr hn),
            List.mem_map_of_mem _ (List.mem_range.mpr hk)⟩))
  · intro a b c d
    simp [correlations_from_occupancy, correlationsWithOrbitOrder, corrWrites,
      corrValue, flatIndex, siteIndex, applyWrites, ClusterSpaceEvaluator.size,
      exTable, emptyOrbit, emptyIntArray2D, List.range_succ]

theorem deltaCorrValue_ratio_one (o : OrbitC) (ind : IntArray2D)
    (occu_f occu_i : List Nat) (k : Nat) :
    deltaCorrValue o ind occu_f occu_i 1 k
      = corrValue o ind occu_f k - corrValue o ind occu_i k := by
  rw [deltaCorrValue, corrValue, corrValue, div_one,
    sum_list_range_eq_finset, sum_list_range_eq_finset, sum_list_range_eq_finset,
    Finset.sum_sub_distrib, sub_div]

theorem zipWith_sub_self (l : List ℚ) :
    List.zipWith (fun a b => a - b) l l = List.replicate l.length 0 := by
  induction l with
  | nil => rfl
  | cons a t ih => simp [ih, List.replicate_succ]

theorem applyWrites_zipWith_sub (ws : List (Nat × ℚ × ℚ)) (la lb : List ℚ)
    (h : la.length = lb.length) :
    applyWrites (ws.map (fun w => (w.1, w.2.1 - w.2.2)))
        (List.zipWith (fun a b => a - b) la lb)
      = List.zipWith (fun a b => a - b)
          (applyWrites (ws.map (fun w => (w.1, w.2.1))) la)
          (applyWrites (ws.map (fun w => (w.1, w.2.2))) lb) :=
  applyWrites_zipWith (fun a b => a - b) ws la lb h

/-- C2: with every cluster ratio equal to 1 and the same (full) cluster-index
tables supplied to all three calls, the correlation vector after a change
equals the correlation vector before it plus the delta vector, slot by slot,
exactly in ℚ. -/
theorem c2_delta_corr_consistency (ev : ClusterSpaceEvaluator)
    (occu_f occu_i : List Nat) (ratios : List ℚ)
    (cluster_indices : List IntArray2D)
    (hra : ∀ n, n < ev.size → ratios.getD n 0 = 1) (s : Nat) :
    (correlations_from_occupancy ev occu_f cluster_indices).getD s 0
      = (correlations_from_occupancy ev occu_i cluster_indices).getD s 0
        + (delta_correlations_from_occupancies ev occu_f occu_i ratios
            cluster_indices).getD s 0 := by
  have hlen1 : ((List.replicate ev.num_corr (0 : ℚ)).set 0 1).length = ev.num_corr := by
    rw [List.length_set, List.length_replicate]
  have hws := applyWrites_zipWith_sub
    (((List.range ev.size).map (fun n =>
      (List.range (ev.data.getD n emptyOrbit).correlation_tensors.size_r).map
        (fun k => ((ev.data.getD n emptyOrbit).bit_id + k,
          (corrValue (ev.data.getD n emptyOrbit)
            (cluster_indices.getD n emptyIntArray2D) occu_f k,
           corrValue (ev.data.getD n emptyOrbit)
            (cluster_indices.getD n emptyIntArray2D) occu_i k))))).flatten)
    ((List.replicate ev.num_corr 0).set 0 1)
    ((List.replicate ev.num_corr 0).set 0 1) rfl
  rw [zipWith_sub_self, hlen1] at hws
  have h1 : (((List.range ev.size).map (fun n =>
      (List.range (ev.data.getD n emptyOrbit).correlation_tensors.size_r).map
        (fun k => ((ev.data.getD n emptyOrbit).bit_id + k,
          (corrValue (ev.data.getD n emptyOrbit)
            (cluster_indices.getD n emptyIntArray2D) occu_f k,
           corrValue (ev.data.getD n emptyOrbit)
            (cluster_indices.getD n emptyIntArray2D) occu_i k))))).flatten).map
        (fun w => (w.1, w.2.1))
      = ((List.range ev.size).map (corrWrites ev occu_f cluster_indices)).flatten := by
    rw [List.map_flatten, List.map_map]
    exact congrArg List.flatten (List.map_congr_left (fun n _ => by
      simp [Function.comp, corrWrites, List.map_map]))
  have h2 : (((List.range ev.size).map (fun n =>
      (List.range (ev.data.getD n emptyOrbit).correlation_tensors.size_r).map
        (fun k => ((ev.data.getD n emptyOrbit).bit_id + k,
          (corrValue (ev.data.getD n emptyOrbit)
            (cluster_indices.getD n emptyIntArray2D) occu_f k,
           corrValue (ev.data.getD n emptyOrbit)
            (cluster_indices.getD n emptyIntArray2D) occu_i k))))).flatten).map
        (fun w => (w.1, w.2.2))
      = ((List.range ev.size).map (corrWrites ev occu_i cluster_indices)).flatten := by
    rw [List.map_flatten, List.map_map]
    exact congrArg List.flatten (List.map_congr_left (fun n _ => by
      simp [Function.comp, corrWrites, List.map_map]))
  have h3 : (((List.range ev.size).map (fun n =>
      (List.range (ev.data.getD n emptyOrbit).correlation_tensors.size_r).map
        (fun k => ((ev.data.getD n emptyOrbit).bit_id + k,
          (corrValue (ev.data.getD n emptyOrbit)
            (cluster_indices.getD n emptyIntArray2D) occu_f k,
           corrValue (ev.data.getD n emptyOrbit)
            (cluster_indices.getD n emptyIntArray2D) occu_i k))))).flatten).map
        (fun w => (w.1, w.2.1 - w.2.2))
      = ((List.range ev.size).map
          (deltaCorrWrites ev occu_f occu_i ratios cluster_indices)).flatten := by
    rw [List.map_flatten, List.map_map]
    refine congrArg List.flatten (List.map_congr_left (fun n hn => ?_))
    simp only [Function.comp, List.map_map, deltaCorrWrites]
    refine List.map_congr_left (fun k _ => ?_)
    rw [hra n (List.mem_range.mp hn), deltaCorrValue_ratio_one]
    rfl
  rw [h1, h2, h3] at hws
  have hdelta : delta_correlations_from_occupancies ev occu_f occu_i ratios
      cluster_indices
      = List.zipWith (fun a b => a - b)
          (correlations_from_occupancy ev occu_f cluster_indices)
          (correlations_from_occupancy ev occu_i cluster_indices) := by
    rw [delta_correlations_from_occupancies, deltaCorrelationsWithOrbitOrder,
      correlations_from_occupancy, correlationsWithOrbitOrder,
      correlations_from_occupancy, correlationsWithOrbitOrder]
    exact hws
  rw [hdelta, getD_zipWith_of (fun a b => a - b) (by ring) _ _ _
    (by rw [correlations_from_occupancy, correlationsWithOrbitOrder,
      correlations_from_occupancy, correlationsWithOrbitOrder,
      length_applyWrites, length_applyWrites])]
  ring

/-- Witness for C2 at the concrete one-orbit instance, slot 1. -/
theorem c2_delta_corr_consistency_witness :
    (correlations_from_occupancy exEvaluator [0, 1, 1, 0] [exTable]).getD 1 0
      = (correlations_from_occupancy exEvaluator [0, 0, 0, 0] [exTable]).getD 1 0
        + (delta_correlations_from_occupancies exEvaluator [0, 1, 1, 0]
            [0, 0, 0, 0] [1] [exTable]).getD 1 0 :=
  c2_delta_corr_consistency exEvaluator [0, 1, 1, 0] [0, 0, 0, 0] [1] [exTable]
    (by decide) 1

theorem size_r_eq_of_rows_perm (ind1 ind2 : IntArray2D)
    (h : (rowsOf ind1).Perm (rowsOf ind2)) : ind1.size_r = ind2.size_r := by
  have hl := h.length_eq
  rwa [length_rowsOf, length_rowsOf] at hl

theorem value_of_rows (ind : IntArray2D) (o : OrbitC) (occu : List Nat)
    (g : Nat → ℚ) :
    ((List.range ind.size_r).map (fun j => g (flatIndex o ind occu j))).sum
      = ((rowsOf ind).map (fun row => g (flatRow o occu row))).sum := by
  rw [← sum_over_rows]
  exact congrArg List.sum (List.map_congr_left (fun j _ => by rw [flatRow_rowOf]))

theorem value_of_rows2 (ind : IntArray2D) (o : OrbitC)
    (occu_f occu_i : List Nat) (g : Nat → Nat → ℚ) :
    ((List.range ind.size_r).map (fun j =>
        g (flatIndex o ind occu_f j) (flatIndex o ind occu_i j))).sum
      = ((rowsOf ind).map (fun row =>
          g (flatRow o occu_f row) (flatRow o occu_i row))).sum := by
  rw [← sum_over_rows]
  exact congrArg List.sum (List.map_congr_left (fun j _ => by
    rw [flatRow_rowOf, flatRow_rowOf]))

theorem avg_sum_rows_perm (o : OrbitC) (occu : List Nat) (ind1 ind2 : IntArray2D)
    (h : (rowsOf ind1).Perm (rowsOf ind2)) (g : Nat → ℚ) :
    (((List.range ind1.size_r).map (fun j => g (flatIndex o ind1 occu j))).sum)
        / (ind1.size_r : ℚ)
      = (((List.range ind2.size_r).map (fun j => g (flatIndex o ind2 occu j))).sum)
        / (ind2.size_r : ℚ) := by
  rw [value_of_rows, value_of_rows, (h.map _).sum_eq,
    size_r_eq_of_rows_perm ind1 ind2 h]

theorem sum_rows_perm2 (o : OrbitC) (occu_f occu_i : List Nat)
    (ind1 ind2 : IntArray2D) (h : (rowsOf ind1).Perm (rowsOf ind2))
    (g : Nat → Nat → ℚ) :
    ((List.range ind1.size_r).map (fun j =>
        g (flatIndex o ind1 occu_f j) (flatIndex o ind1 occu_i j))).sum
      = ((List.range ind2.size_r).map (fun j =>
          g (flatIndex o ind2 occu_f j) (flatIndex o ind2 occu_i j))).sum := by
  rw [value_of_rows2, value_of_rows2]
  exact (h.map _).sum_eq

theorem corrValue_rows_perm (o : OrbitC) (ind1 ind2 : IntArray2D)
    (occu : List Nat) (k : Nat) (h : (rowsOf ind1).Perm (rowsOf ind2)) :
    corrValue o ind1 occu k = corrValue o ind2 occu k := by
  rw [corrValue, corrValue]
  exact avg_sum_rows_perm o occu ind1 ind2 h
    (fun x => o.correlation_tensors.data.getD
      (k * o.correlation_tensors.size_c + x) 0)

theorem deltaCorrValue_rows_perm (o : OrbitC) (ind1 ind2 : IntArray2D)
    (occu_f occu_i : List Nat) (r : ℚ) (k : Nat)
    (h : (rowsOf ind1).Perm (rowsOf ind2)) :
    deltaCorrValue o ind1 occu_f occu_i r k
      = deltaCorrValue o ind2 occu_f occu_i r k := by
  have hs : ((List.range ind1.size_r).map (fun j =>
      o.correlation_tensors.data.getD
        (k * o.correlation_tensors.size_c + flatIndex o ind1 occu_f j) 0
      - o.correlation_tensors.data.getD
        (k * o.correlation_tensors.size_c + flatIndex o ind1 occu_i j) 0)).sum
      = ((List.range ind2.size_r).map (fun j =>
      o.correlation_tensors.data.getD
        (k * o.correlation_tensors.size_c + flatIndex o ind2 occu_f j) 0
      - o.correlation_tensors.data.getD
        (k * o.correlation_tensors.size_c + flatIndex o ind2 occu_i j) 0)).sum :=
    sum_rows_perm2 o occu_f occu_i ind1 ind2 h
      (fun xf xi =>
        o.correlation_tensors.data.getD (k * o.correlation_tensors.size_c + xf) 0
        - o.correlation_tensors.data.getD (k * o.correlation_tensors.size_c + xi) 0)
  rw [deltaCorrValue, deltaCorrValue, hs, size_r_eq_of_rows_perm ind1 ind2 h]

/-- C7: permuting the rows within any orbit's cluster-index table (leaving
everything else fixed) leaves the outputs of all four routines unchanged. -/
theorem c7_row_order_invariance (ev : ClusterSpaceEvaluator)
    (occu occu_f occu_i : List Nat) (offset : ℚ) (ratios : List ℚ)
    (ci1 ci2 : List IntArray2D)
    (hperm : ∀ n, n < ev.size →
      (rowsOf (ci1.getD n emptyIntArray2D)).Perm
        (rowsOf (ci2.getD n emptyIntArray2D))) :
    correlations_from_occupancy ev occu ci1
        = correlations_from_occupancy ev occu ci2
    ∧ interactions_from_occupancy ev occu offset ci1
        = interactions_from_occupancy ev occu offset ci2
    ∧ delta_correlations_from_occupancies ev occu_f occu_i ratios ci1
        = delta_correlations_from_occupancies ev occu_f occu_i ratios ci2
    ∧ delta_interactions_from_occupancies ev occu_f occu_i ratios ci1
        = delta_interactions_from_occupancies ev occu_f occu_i ratios ci2 := by
  refine ⟨?_, ?_, ?_, ?_⟩
  · rw [correlations_from_occupancy, correlationsWithOrbitOrder,
      correlations_from_occupancy, correlationsWithOrbitOrder]
    refine congrArg (fun ws => applyWrites ws _)
      (congrArg List.flatten (List.map_congr_left (fun n hn => ?_)))
    refine List.map_congr_left (fun k _ => ?_)
    rw [Prod.mk.injEq]
    exact ⟨rfl, corrValue_rows_perm _ _ _ _ _ (hperm n (List.mem_range.mp hn))⟩
  · rw [interactions_from_occupancy, interactionsWithOrbitOrder,
      interactions_from_occupancy, interactionsWithOrbitOrder]
    refine congrArg (fun ws => applyWrites ws _)
      (congrArg List.flatten (List.map_congr_left (fun n hn => ?_)))
    rw [interactionWrites, interactionWrites, interactionValue, interactionValue]
    have hv := avg_sum_rows_perm (ev.data.getD n emptyOrbit) occu
      (ci1.getD n emptyIntArray2D) (ci2.getD n emptyIntArray2D)
      (hperm n (List.mem_range.mp hn))
      (fun x => (ev.cluster_interactions.getD n emptyFloatArray1D).data.getD x 0)
    exact congrArg (fun v => [((ev.data.getD n emptyOrbit).id, v)]) hv
  · rw [delta_correlations_from_occupancies, deltaCorrelationsWithOrbitOrder,
      delta_correlations_from_occupancies, deltaCorrelationsWithOrbitOrder]
    refine congrArg (fun ws => applyWrites ws _)
      (congrArg List.flatten (List.map_congr_left (fun n hn => ?_)))
    refine List.map_congr_left (fun k _ => ?_)
    rw [Prod.mk.injEq]
    exact ⟨rfl, deltaCorrValue_rows_perm _ _ _ _ _ _ _
      (hperm n (List.mem_range.mp hn))⟩
  · rw [delta_interactions_from_occupancies, deltaInteractionsWithOrbitOrder,
      delta_interactions_from_occupancies, deltaInteractionsWithOrbitOrder]
    refine congrArg (fun ws => applyWrites ws _)
      (congrArg List.flatten (List.map_congr_left (fun n hn => ?_)))
    rw [deltaInteractionWrites, deltaInteractionWrites]
    have hs : ((List.range (ci1.getD n emptyIntArray2D).size_r).map (fun j =>
        (ev.cluster_interactions.getD n emptyFloatArray1D).data.getD
          (flatIndex (ev.data.getD n emptyOrbit)
            (ci1.getD n emptyIntArray2D) occu_f j) 0
        - (ev.cluster_interactions.getD n emptyFloatArray1D).data.getD
          (flatIndex (ev.data.getD n emptyOrbit)
            (ci1.getD n emptyIntArray2D) occu_i j) 0)).sum
        = ((List.range (ci2.getD n emptyIntArray2D).size_r).map (fun j =>
        (ev.cluster_interactions.getD n emptyFloatArray1D).data.getD
          (flatIndex (ev.data.getD n emptyOrbit)
            (ci2.getD n emptyIntArray2D) occu_f j) 0
        - (ev.cluster_interactions.getD n emptyFloatArray1D).data.getD
          (flatIndex (ev.data.getD n emptyOrbit)
            (ci2.getD n emptyIntArray2D) occu_i j) 0)).sum :=
      sum_rows_perm2 (ev.data.getD n emptyOrbit) occu_f occu_i
        (ci1.getD n emptyIntArray2D) (ci2.getD n emptyIntArray2D)
        (hperm n (List.mem_range.mp hn))
        (fun xf xi =>
          (ev.cluster_interactions.getD n emptyFloatArray1D).data.getD xf 0
          - (ev.cluster_interactions.getD n emptyFloatArray1D).data.getD xi 0)
    rw [deltaInteractionValue, deltaInteractionValue, hs,
      size_r_eq_of_rows_perm _ _ (hperm n (List.mem_range.mp hn))]

/-- Witness for C7: swapping the two rows of the concrete table. -/
theorem c7_row_order_invariance_witness :
    correlations_from_occupancy exEvaluator [0, 1, 1, 0] [exTable]
        = correlations_from_occupancy exEvaluator [0, 1, 1, 0] [exTableSwapped]
    ∧ interactions_from_occupancy exEvaluator [0, 1, 1, 0] 7 [exTable]
        = interactions_from_occupancy exEvaluator [0, 1, 1, 0] 7 [exTableSwapped]
    ∧ delta_correlations_from_occupancies exEvaluator [0, 1, 1, 0] [0, 0, 0, 0]
          [1] [exTable]
        = delta_correlations_from_occupancies exEvaluator [0, 1, 1, 0] [0, 0, 0, 0]
          [1] [exTableSwapped]
    ∧ delta_interactions_from_occupancies exEvaluator [0, 1, 1, 0] [0, 0, 0, 0]
          [1] [exTable]
        = delta_interactions_from_occupancies exEvaluator [0, 1, 1, 0] [0, 0, 0, 0]
          [1] [exTableSwapped] :=
  c7_row_order_invariance exEvaluator [0, 1, 1, 0] [0, 1, 1, 0] [0, 0, 0, 0] 7
    [1] [exTable] [exTableSwapped] (by decide)

/-- Counterexample for C4: constructing an evaluator over one orbit while
supplying two cluster interaction tensors succeeds and stores the mismatched
tuple unchanged — `__cinit__` performs no count check, so no configuration
error is raised at construction (the claim asserts construction fails fast). -/
theorem c4_constructor_no_count_check :
    (mkClusterSpaceEvaluator [exOrbit] 1 2 0
        (some [⟨[(1 : ℚ)]⟩, ⟨[(2 : ℚ)]⟩])).size = 1
    ∧ (mkClusterSpaceEvaluator [exOrbit] 1 2 0
        (some [⟨[(1 : ℚ)]⟩, ⟨[(2 : ℚ)]⟩])).cluster_interactions
      = [⟨[(1 : ℚ)]⟩, ⟨[(2 : ℚ)]⟩] :=
  ⟨rfl, rfl⟩

/-- C4 (amended): `set_cluster_interactions` called with a tensor count
differing from the orbit count raises a descriptive configuration error
before any state is changed, and with a matching count replaces the stored
tensors and offset; tensors supplied at construction are stored as given,
with no count check, no truncation and no padding. -/
theorem c4_set_cluster_interactions_validation :
    (∀ (ev : ClusterSpaceEvaluator) (ts : List FloatArray1D) (offset : ℚ),
      ts.length ≠ ev.size →
        set_cluster_interactions ev ts offset
          = Except.error
            ("Number of cluster interaction tensors must be equal to the number of orbits."))
    ∧ (∀ (ev : ClusterSpaceEvaluator) (ts : List FloatArray1D) (offset : ℚ),
      ts.length = ev.size →
        set_cluster_interactions ev ts offset
          = Except.ok { ev with cluster_interactions := ts, offset := offset })
    ∧ (∀ (orbit_data : List OrbitC) (num_orbits num_corr : Nat) (offset : ℚ)
        (ts : List FloatArray1D),
      (mkClusterSpaceEvaluator orbit_data num_orbits num_corr offset
          (some ts)).cluster_interactions = ts) := by
  refine ⟨?_, ?_, ?_⟩
  · intro ev ts offset h
    rw [set_cluster_interactions, if_pos h]
  · intro ev ts offset h
    rw [set_cluster_interactions, if_neg (fun hc => hc h)]
  · intro orbit_data num_orbits num_corr offset ts
    rfl

/-- Witness for C4 (amended): a mismatched call errors, a matching call
replaces the tensors. -/
theorem c4_set_cluster_interactions_validation_witness :
    set_cluster_interactions exEvaluator [] 0
      = Except.error
        ("Number of cluster interaction tensors must be equal to the number of orbits.")
    ∧ set_cluster_interactions exEvaluator [⟨[(5 : ℚ)]⟩] 3
      = Except.ok { exEvaluator with
          cluster_interactions := [⟨[(5 : ℚ)]⟩], offset := 3 } :=
  ⟨c4_set_cluster_interactions_validation.1 exEvaluator [] 0 (by decide),
   c4_set_cluster_interactions_validation.2.1 exEvaluator [⟨[(5 : ℚ)]⟩] 3 (by decide)⟩

/-- C10: every division performed by the four routines is by an orbit's `J`
(the row count of its cluster-index table) or, in the delta routines, also by
`cluster_ratio[n]`, with no guard; under the precondition that every orbit's
table is non-empty and every ratio nonzero, no zero divisor occurs — while
for an input violating the precondition (an orbit with an empty index table)
a zero divisor is reached and the routine still completes, performing the
division by zero instead of raising a configuration error (`x / 0 = 0` in the
ℚ model, a non-signalling NaN in the C double arithmetic of the source). -/
theorem c10_division_by_zero_guards (ev : ClusterSpaceEvaluator)
    (ratios : List ℚ) (cluster_indices : List IntArray2D)
    (hJ : ∀ n, n < ev.size → 1 ≤ (cluster_indices.getD n emptyIntArray2D).size_r)
    (hr : ∀ n, n < ev.size → ratios.getD n 0 ≠ 0) :
    ((0 : ℚ) ∉ corrDivisors ev cluster_indices
      ∧ (0 : ℚ) ∉ interactionDivisors ev cluster_indices
      ∧ (0 : ℚ) ∉ deltaCorrDivisors ev ratios cluster_indices
      ∧ (0 : ℚ) ∉ deltaInteractionDivisors ev ratios cluster_indices)
    ∧ ((0 : ℚ) ∈ corrDivisors exEvaluator [exEmptyTable]
      ∧ correlations_from_occupancy exEvaluator [0, 0, 0, 0] [exEmptyTable]
        = [1, 0]) := by
  refine ⟨⟨?_, ?_, ?_, ?_⟩, ?_, ?_⟩
  · intro h
    rw [corrDivisors] at h
    obtain ⟨l, hl, h0⟩ := List.mem_flatten.mp h
    obtain ⟨n, hn, rfl⟩ := List.mem_map.mp hl
    obtain ⟨k, _, hkv⟩ := List.mem_map.mp h0
    have hJ0 : (cluster_indices.getD n emptyIntArray2D).size_r = 0 := by
      exact_mod_cast hkv
    have := hJ n (List.mem_range.mp hn)
    omega
  · intro h
    rw [interactionDivisors] at h
    obtain ⟨n, hn, hkv⟩ := List.mem_map.mp h
    have hJ0 : (cluster_indices.getD n emptyIntArray2D).size_r = 0 := by
      exact_mod_cast hkv
    have := hJ n (List.mem_range.mp hn)
    omega
  · intro h
    rw [deltaCorrDivisors] at h
    obtain ⟨l, hl, h0⟩ := List.mem_flatten.mp h
    obtain ⟨n, hn, rfl⟩ := List.mem_map.mp hl
    obtain ⟨l2, hl2, h02⟩ := List.mem_flatten.mp h0
    obtain ⟨k, _, rfl⟩ := List.mem_map.mp hl2
    rcases List.mem_cons.mp h02 with hra | hJ2
    · exact hr n (List.mem_range.mp hn) hra.symm
    · have hJ0 : (cluster_indices.getD n emptyIntArray2D).size_r = 0 := by
        have := List.mem_singleton.mp hJ2
        exact_mod_cast this.symm
      have := hJ n (List.mem_range.mp hn)
      omega
  · intro h
    rw [deltaInteractionDivisors] at h
    obtain ⟨l, hl, h0⟩ := List.mem_flatten.mp h
    obtain ⟨n, hn, rfl⟩ := List.mem_map.mp hl
    rcases List.mem_cons.mp h0 with hra | hJ2
    · exact hr n (List.mem_range.mp hn) hra.symm
    · have hJ0 : (cluster_indices.getD n emptyIntArray2D).size_r = 0 := by
        have := List.mem_singleton.mp hJ2
        exact_mod_cast this.symm
      have := hJ n (List.mem_range.mp hn)
      omega
  · simp [corrDivisors, exEvaluator, exOrbit, exEmptyTable,
      emptyIntArray2D, ClusterSpaceEvaluator.size, List.range_succ]
  · simp [correlations_from_occupancy, correlationsWithOrbitOrder, corrWrites,
      corrValue, flatIndex, siteIndex, applyWrites, ClusterSpaceEvaluator.size,
      exEvaluator, exOrbit, exEmptyTable, emptyOrbit, emptyIntArray2D,
      List.range_succ]

/-- Witness for C10: a valid configuration (non-empty table, unit ratio) has
no zero divisor, and the empty-table misuse divides by zero yet returns. -/
theorem c10_division_by_zero_guards_witness :
    ((0 : ℚ) ∉ corrDivisors exEvaluator [exTable]
      ∧ (0 : ℚ) ∉ interactionDivisors exEvaluator [exTable]
      ∧ (0 : ℚ) ∉ deltaCorrDivisors exEvaluator [1] [exTable]
      ∧ (0 : ℚ) ∉ deltaInteractionDivisors exEvaluator [1] [exTable])
    ∧ ((0 : ℚ) ∈ corrDivisors exEvaluator [exEmptyTable]
      ∧ correlations_from_occupancy exEvaluator [0, 0, 0, 0] [exEmptyTable]
        = [1, 0]) :=
  c10_division_by_zero_guards exEvaluator [1] [exTable] (by decide) (by decide)

/-- C9: in each of the four routines, orbit `n`'s iteration writes only to
its statically-known output slots (the contiguous range `bit_id n .. bit_id n
+ K - 1` for the correlation routines, the single slot `id n` for the
interaction routines); consequently, when those per-orbit slot sets are
pairwise disjoint, running the orbit loop in any order (any schedule of the
parallel loop) produces the same output vector as the reference order. -/
theorem c9_orbit_parallel_safety (ev : ClusterSpaceEvaluator)
    (occu occu_f occu_i : List Nat) (offset : ℚ) (ratios : List ℚ)
    (cluster_indices : List IntArray2D) (order : List Nat)
    (hord : order.Perm (List.range ev.size))
    (hc : (corrSlots ev).Pairwise (fun a b => a ≠ b))
    (hi : (interactionSlots ev).Pairwise (fun a b => a ≠ b)) :
    (∀ n w, w ∈ corrWrites ev occu cluster_indices n →
      (ev.data.getD n emptyOrbit).bit_id ≤ w.1
      ∧ w.1 < (ev.data.getD n emptyOrbit).bit_id
          + (ev.data.getD n emptyOrbit).correlation_tensors.size_r)
    ∧ (∀ n w, w ∈ deltaCorrWrites ev occu_f occu_i ratios cluster_indices n →
      (ev.data.getD n emptyOrbit).bit_id ≤ w.1
      ∧ w.1 < (ev.data.getD n emptyOrbit).bit_id
          + (ev.data.getD n emptyOrbit).correlation_tensors.size_r)
    ∧ (∀ n w, w ∈ interactionWrites ev occu cluster_indices n →
      w.1 = (ev.data.getD n emptyOrbit).id)
    ∧ (∀ n w, w ∈ deltaInteractionWrites ev occu_f occu_i ratios cluster_indices n →
      w.1 = (ev.data.getD n emptyOrbit).id)
    ∧ correlationsWithOrbitOrder ev occu cluster_indices order
        = correlations_from_occupancy ev occu cluster_indices
    ∧ interactionsWithOrbitOrder ev occu offset cluster_indices order
        = interactions_from_occupancy ev occu offset cluster_indices
    ∧ deltaCorrelationsWithOrbitOrder ev occu_f occu_i ratios cluster_indices order
        = delta_correlations_from_occupancies ev occu_f occu_i ratios
            cluster_indices
    ∧ deltaInteractionsWithOrbitOrder ev occu_f occu_i ratios cluster_indices order
        = delta_interactions_from_occupancies ev occu_f occu_i ratios
            cluster_indices := by
  refine ⟨?_, ?_, ?_, ?_, ?_, ?_, ?_, ?_⟩
  · intro n w hw
    obtain ⟨k, hk, hwk⟩ := fst_of_mem_corrWrites ev occu cluster_indices n w hw
    omega
  · intro n w hw
    obtain ⟨k, hk, hwk⟩ :=
      fst_of_mem_deltaCorrWrites ev occu_f occu_i ratios cluster_indices n w hw
    omega
  · intro n w hw
    rw [List.mem_singleton.mp hw]
  · intro n w hw
    rw [List.mem_singleton.mp hw]
  · rw [correlations_from_occupancy, correlationsWithOrbitOrder,
      correlationsWithOrbitOrder]
    exact applyWrites_perm _ _ _
      ((hord.map (corrWrites ev occu cluster_indices)).flatten)
      (((List.Perm.pairwise_iff (fun h => h.symm))
          ((hord.map (corrWrites ev occu cluster_indices)).flatten)).mpr
        (pairwise_of_fst_map _ _
          (corrWrites_fst_flatten ev occu cluster_indices) hc))
  · rw [interactions_from_occupancy, interactionsWithOrbitOrder,
      interactionsWithOrbitOrder]
    exact applyWrites_perm _ _ _
      ((hord.map (interactionWrites ev occu cluster_indices)).flatten)
      (((List.Perm.pairwise_iff (fun h => h.symm))
          ((hord.map (interactionWrites ev occu cluster_indices)).flatten)).mpr
        (pairwise_of_fst_map _ _
          (interactionWrites_fst_flatten ev occu cluster_indices) hi))
  · rw [delta_correlations_from_occupancies, deltaCorrelationsWithOrbitOrder,
      deltaCorrelationsWithOrbitOrder]
    exact applyWrites_perm _ _ _
      ((hord.map (deltaCorrWrites ev occu_f occu_i ratios cluster_indices)).flatten)
      (((List.Perm.pairwise_iff (fun h => h.symm))
          ((hord.map
            (deltaCorrWrites ev occu_f occu_i ratios cluster_indices)).flatten)).mpr
        (pairwise_of_fst_map _ _
          (deltaCorrWrites_fst_flatten ev occu_f occu_i ratios cluster_indices) hc))
  · rw [delta_interactions_from_occupancies, deltaInteractionsWithOrbitOrder,
      deltaInteractionsWithOrbitOrder]
    exact applyWrites_perm _ _ _
      ((hord.map
        (deltaInteractionWrites ev occu_f occu_i ratios cluster_indices)).flatten)
      (((List.Perm.pairwise_iff (fun h => h.symm))
          ((hord.map
            (deltaInteractionWrites ev occu_f occu_i ratios cluster_indices)).flatten)).mpr
        (pairwise_of_fst_map _ _
          (deltaInteractionWrites_fst_flatten ev occu_f occu_i ratios
            cluster_indices) hi))

/-- Witness for C9: the two-orbit instance evaluated with the orbit loop run
backwards. -/
theorem c9_orbit_parallel_safety_witness :
    correlationsWithOrbitOrder exEvaluator2 [0, 1, 1, 0] [exTable, exTableB] [1, 0]
        = correlations_from_occupancy exEvaluator2 [0, 1, 1, 0] [exTable, exTableB]
    ∧ interactionsWithOrbitOrder exEvaluator2 [0, 1, 1, 0] 7 [exTable, exTableB] [1, 0]
        = interactions_from_occupancy exEvaluator2 [0, 1, 1, 0] 7 [exTable, exTableB] :=
  ⟨(c9_orbit_parallel_safety exEvaluator2 [0, 1, 1, 0] [0, 1, 1, 0] [0, 0, 0, 0]
      7 [1, 1] [exTable, exTableB] [1, 0] (by decide) (by decide) (by decide)).2.2.2.2.1,
   (c9_orbit_parallel_safety exEvaluator2 [0, 1, 1, 0] [0, 1, 1, 0] [0, 0, 0, 0]
      7 [1, 1] [exTable, exTableB] [1, 0] (by decide) (by decide) (by decide)).2.2.2.2.2.1⟩

theorem getD_map_lt {α β : Type} (f : α → β) (l : List α) (n : Nat) (d : β)
    (d0 : α) (h : n < l.length) : (l.map f).getD n d = f (l.getD n d0) := by
  rw [List.getD_eq_getElem?_getD, List.getElem?_map, List.getElem?_eq_getElem h,
    List.getD_eq_getElem?_getD, List.getElem?_eq_getElem h]
  rfl

theorem getD_mem_of_lt {α : Type} (l : List α) (n : Nat) (d : α)
    (h : n < l.length) : l.getD n d ∈ l := by
  rw [List.getD_eq_getElem?_getD, List.getElem?_eq_getElem h]
  exact List.getElem_mem h

theorem mul_index_lt (j i J I : Nat) (hj : j < J) (hi : i < I) :
    j * I + i < J * I := by
  have h1 : j * I + i < (j + 1) * I := by rw [Nat.succ_mul]; omega
  exact lt_of_lt_of_le h1 (Nat.mul_le_mul_right I hj)

theorem siteIndex_replicateTable (S m : Nat) (ind : IntArray2D)
    (hlen : ind.data.length = ind.size_r * ind.size_c) (r j i : Nat)
    (hr : r < m) (hj : j < ind.size_r) (hi : i < ind.size_c) :
    siteIndex (replicateTable S m ind) (r * ind.size_r + j) i
      = siteIndex ind j i + r * S := by
  have hp : j * ind.size_c + i < ind.data.length := by
    rw [hlen]; exact mul_index_lt j i ind.size_r ind.size_c hj hi
  have hpos : (r * ind.size_r + j) * ind.size_c + i
      = r * ind.data.length + (j * ind.size_c + i) := by
    rw [hlen]; ring
  rw [siteIndex, siteIndex, replicateTable]
  simp only []
  rw [hpos,
    getD_flatten_uniform _ ind.data.length 0
      (fun l hl => by
        obtain ⟨r2, _, rfl⟩ := List.mem_map.mp hl
        rw [List.length_map])
      r (j * ind.size_c + i)
      (by rw [List.length_map, List.length_range]; exact hr) hp,
    getD_list_map_range, if_pos hr, getD_map_lt _ _ _ _ 0 hp]

theorem getD_replicateOccu (m : Nat) (occu : List Nat) (e r : Nat)
    (he : e < occu.length) (hr : r < m) :
    (replicateOccu m occu).getD (e + r * occu.length) 0 = occu.getD e 0 := by
  rw [replicateOccu, Nat.add_comm,
    getD_flatten_uniform _ occu.length 0
      (fun l hl => by rw [List.eq_of_mem_replicate hl])
      r e (by rw [List.length_replicate]; exact hr) he,
    getD_list_replicate _ _ _ _ hr]

theorem flatIndex_replicateTable (o : OrbitC) (ind : IntArray2D)
    (occu : List Nat) (m r j : Nat)
    (hlen : ind.data.length = ind.size_r * ind.size_c)
    (hsites : ∀ x ∈ ind.data, x < occu.length)
    (hr : r < m) (hj : j < ind.size_r) :
    flatIndex o (replicateTable occu.length m ind) (replicateOccu m occu)
        (r * ind.size_r + j)
      = flatIndex o ind occu j := by
  rw [flatIndex, flatIndex]
  refine congrArg List.sum (List.map_congr_left (fun i hi => ?_))
  have hi' : i < ind.size_c := List.mem_range.mp hi
  have hp : j * ind.size_c + i < ind.data.length := by
    rw [hlen]; exact mul_index_lt j i ind.size_r ind.size_c hj hi'
  have he : siteIndex ind j i < occu.length :=
    hsites _ (getD_mem_of_lt _ _ _ hp)
  rw [siteIndex_replicateTable occu.length m ind hlen r j i hr hj hi',
    getD_replicateOccu m occu _ r he hr]

theorem avg_sum_replicate (o : OrbitC) (ind : IntArray2D) (occu : List Nat)
    (m : Nat) (hm : 1 ≤ m)
    (hlen : ind.data.length = ind.size_r * ind.size_c)
    (hsites : ∀ x ∈ ind.data, x < occu.length) (g : Nat → ℚ) :
    (((List.range (replicateTable occu.length m ind).size_r).map (fun j =>
        g (flatIndex o (replicateTable occu.length m ind)
            (replicateOccu m occu) j))).sum)
      / ((replicateTable occu.length m ind).size_r : ℚ)
    = (((List.range ind.size_r).map (fun j => g (flatIndex o ind occu j))).sum)
      / (ind.size_r : ℚ) := by
  show (((List.range (m * ind.size_r)).map (fun j =>
      g (flatIndex o (replicateTable occu.length m ind)
          (replicateOccu m occu) j))).sum)
    / (((m * ind.size_r : Nat)) : ℚ) = _
  rw [sum_range_mul_blocks m ind.size_r
      (fun j => g (flatIndex o (replicateTable occu.length m ind)
        (replicateOccu m occu) j))
      (fun j => g (flatIndex o ind occu j))
      (fun r hr j hj => by
        show g (flatIndex o (replicateTable occu.length m ind)
            (replicateOccu m occu) (r * ind.size_r + j))
          = g (flatIndex o ind occu j)
        rw [flatIndex_replicateTable o ind occu m r j hlen hsites hr hj]),
    Nat.cast_mul,
    mul_div_mul_left _ _ (by
      have hm0 : m ≠ 0 := by omega
      exact_mod_cast hm0)]

/-- C8: evaluating on an `m`-fold replicated supercell — occupancy
replicated `m` times, every orbit's cluster-index table gaining `m` copies of
its rows with site indices shifted by the replica offset — yields exactly the
same correlation and interaction vectors as evaluating on the unit cell. -/
theorem c8_supercell_intensivity (ev : ClusterSpaceEvaluator) (occu : List Nat)
    (offset : ℚ) (cluster_indices : List IntArray2D) (m : Nat)
    (hm : 1 ≤ m)
    (hcov : ev.size ≤ cluster_indices.length)
    (hwf : ∀ n, n < ev.size →
      (cluster_indices.getD n emptyIntArray2D).data.length
        = (cluster_indices.getD n emptyIntArray2D).size_r
          * (cluster_indices.getD n emptyIntArray2D).size_c)
    (hsites : ∀ n, n < ev.size →
      ∀ x ∈ (cluster_indices.getD n emptyIntArray2D).data, x < occu.length) :
    correlations_from_occupancy ev (replicateOccu m occu)
        (cluster_indices.map (replicateTable occu.length m))
      = correlations_from_occupancy ev occu cluster_indices
    ∧ interactions_from_occupancy ev (replicateOccu m occu) offset
        (cluster_indices.map (replicateTable occu.length m))
      = interactions_from_occupancy ev occu offset cluster_indices := by
  constructor
  · rw [correlations_from_occupancy, correlationsWithOrbitOrder,
      correlations_from_occupancy, correlationsWithOrbitOrder]
    refine congrArg (fun ws => applyWrites ws _)
      (congrArg List.flatten (List.map_congr_left (fun n hn => ?_)))
    have hn' : n < ev.size := List.mem_range.mp hn
    refine List.map_congr_left (fun k _ => ?_)
    rw [Prod.mk.injEq]
    refine ⟨rfl, ?_⟩
    rw [corrValue, corrValue,
      getD_map_lt (replicateTable occu.length m) cluster_indices n
        emptyIntArray2D emptyIntArray2D (lt_of_lt_of_le hn' hcov)]
    exact avg_sum_replicate (ev.data.getD n emptyOrbit)
      (cluster_indices.getD n emptyIntArray2D) occu m hm
      (hwf n hn') (hsites n hn')
      (fun x => (ev.data.getD n emptyOrbit).correlation_tensors.data.getD
        (k * (ev.data.getD n emptyOrbit).correlation_tensors.size_c + x) 0)
  · rw [interactions_from_occupancy, interactionsWithOrbitOrder,
      interactions_from_occupancy, interactionsWithOrbitOrder]
    refine congrArg (fun ws => applyWrites ws _)
      (congrArg List.flatten (List.map_congr_left (fun n hn => ?_)))
    have hn' : n < ev.size := List.mem_range.mp hn
    rw [interactionWrites, interactionWrites, interactionValue, interactionValue,
      getD_map_lt (replicateTable occu.length m) cluster_indices n
        emptyIntArray2D emptyIntArray2D (lt_of_lt_of_le hn' hcov)]
    have hv := avg_sum_replicate (ev.data.getD n emptyOrbit)
      (cluster_indices.getD n emptyIntArray2D) occu m hm
      (hwf n hn') (hsites n hn')
      (fun x => (ev.cluster_interactions.getD n emptyFloatArray1D).data.getD x 0)
    exact congrArg (fun v => [((ev.data.getD n emptyOrbit).id, v)]) hv

/-- Witness for C8: the concrete one-orbit instance replicated twice. -/
theorem c8_supercell_intensivity_witness :
    correlations_from_occupancy exEvaluator (replicateOccu 2 [0, 1, 1, 0])
        ([exTable].map (replicateTable 4 2))
      = correlations_from_occupancy exEvaluator [0, 1, 1, 0] [exTable]
    ∧ interactions_from_occupancy exEvaluator (replicateOccu 2 [0, 1, 1, 0]) 7
        ([exTable].map (replicateTable 4 2))
      = interactions_from_occupancy exEvaluator [0, 1, 1, 0] 7 [exTable] :=
  c8_supercell_intensivity exEvaluator [0, 1, 1, 0] 7 [exTable] 2
    (by decide) (by decide) (by decide) (by decide)

theorem sum_map_flatten {α : Type} (outer : List (List α)) (f : α → ℚ) :
    ((outer.flatten).map f).sum
      = (outer.map (fun l => (l.map f).sum)).sum := by
  rw [List.map_flatten, List.sum_flatten, List.map_map]
  rfl

theorem sum_zipWith_zero_mul (n : Nat) (c : List ℚ) :
    (List.zipWith (fun a b => a * b) (List.replicate n 0) c).sum = 0 := by
  induction c generalizing n with
  | nil => simp
  | cons b tb ih =>
    cases n with
    | zero => simp
    | succ n => simp [List.replicate_succ, ih]

theorem fst_mem_corrSlots_of_writes (ev : ClusterSpaceEvaluator)
    (occu : List Nat) (cluster_indices : List IntArray2D) (w : Nat × ℚ)
    (hw : w ∈ ((List.range ev.size).map (corrWrites ev occu cluster_indices)).flatten) :
    w.1 ∈ corrSlots ev := by
  obtain ⟨l, hl, hwl⟩ := List.mem_flatten.mp hw
  obtain ⟨n, hn, rfl⟩ := List.mem_map.mp hl
  obtain ⟨k, hk, hwk⟩ := fst_of_mem_corrWrites ev occu cluster_indices n w hwl
  rw [corrSlots]
  refine List.mem_flatten.mpr ⟨_, List.mem_map_of_mem _ hn, ?_⟩
  rw [hwk]
  exact List.mem_map_of_mem _ (List.mem_range.mpr hk)

theorem fst_mem_interactionSlots_of_writes (ev : ClusterSpaceEvaluator)
    (occu : List Nat) (cluster_indices : List IntArray2D) (w : Nat × ℚ)
    (hw : w ∈ ((List.range ev.size).map
      (interactionWrites ev occu cluster_indices)).flatten) :
    w.1 ∈ interactionSlots ev := by
  obtain ⟨l, hl, hwl⟩ := List.mem_flatten.mp hw
  obtain ⟨n, hn, rfl⟩ := List.mem_map.mp hl
  rw [List.mem_singleton.mp hwl]
  exact List.mem_map_of_mem _ hn

theorem interactionWrites_snd_sum (ev : ClusterSpaceEvaluator) (occu : List Nat)
    (cluster_indices : List IntArray2D) :
    ((((List.range ev.size).map (interactionWrites ev occu cluster_indices)).flatten).map
        Prod.snd).sum
      = ∑ n ∈ Finset.range ev.size, interactionValue ev occu cluster_indices n := by
  rw [sum_map_flatten, List.map_map, ← sum_list_range_eq_finset]
  refine congrArg List.sum (List.map_congr_left (fun n _ => ?_))
  simp [Function.comp, interactionWrites]

theorem corrWrites_dot_sum (ev : ClusterSpaceEvaluator) (occu : List Nat)
    (coeffs : List ℚ) (cluster_indices : List IntArray2D) :
    ((((List.range ev.size).map (corrWrites ev occu cluster_indices)).flatten).map
        (fun w => w.2 * coeffs.getD w.1 0)).sum
      = ∑ n ∈ Finset.range ev.size,
          ∑ k ∈ Finset.range (ev.data.getD n emptyOrbit).correlation_tensors.size_r,
            corrValue (ev.data.getD n emptyOrbit)
                (cluster_indices.getD n emptyIntArray2D) occu k
              * coeffs.getD ((ev.data.getD n emptyOrbit).bit_id + k) 0 := by
  rw [sum_map_flatten, List.map_map, ← sum_list_range_eq_finset]
  refine congrArg List.sum (List.map_congr_left (fun n _ => ?_))
  simp only [Function.comp]
  rw [corrWrites, List.map_map, ← sum_list_range_eq_finset]
  rfl

theorem interactionValue_derived (ev : ClusterSpaceEvaluator) (occu : List Nat)
    (coeffs : List ℚ) (cluster_indices : List IntArray2D) (n : Nat)
    (hn : n < ev.size)
    (hder : ev.cluster_interactions
      = ev.data.map (fun o => interactionTensor o coeffs))
    (hflat : ∀ j, j < (cluster_indices.getD n emptyIntArray2D).size_r →
      flatIndex (ev.data.getD n emptyOrbit)
          (cluster_indices.getD n emptyIntArray2D) occu j
        < (ev.data.getD n emptyOrbit).correlation_tensors.size_c) :
    interactionValue ev occu cluster_indices n
      = ∑ k ∈ Finset.range (ev.data.getD n emptyOrbit).correlation_tensors.size_r,
          coeffs.getD ((ev.data.getD n emptyOrbit).bit_id + k) 0
            * corrValue (ev.data.getD n emptyOrbit)
                (cluster_indices.getD n emptyIntArray2D) occu k := by
  rw [interactionValue, hder,
    getD_map_lt _ ev.data n emptyFloatArray1D emptyOrbit hn]
  have hstep : ((List.range (cluster_indices.getD n emptyIntArray2D).size_r).map
      (fun j => (interactionTensor (ev.data.getD n emptyOrbit) coeffs).data.getD
        (flatIndex (ev.data.getD n emptyOrbit)
          (cluster_indices.getD n emptyIntArray2D) occu j) 0)).sum
      = ∑ j ∈ Finset.range (cluster_indices.getD n emptyIntArray2D).size_r,
          ∑ k ∈ Finset.range
              (ev.data.getD n emptyOrbit).correlation_tensors.size_r,
            coeffs.getD ((ev.data.getD n emptyOrbit).bit_id + k) 0
              * (ev.data.getD n emptyOrbit).correlation_tensors.data.getD
                  (k * (ev.data.getD n emptyOrbit).correlation_tensors.size_c
                    + flatIndex (ev.data.getD n emptyOrbit)
                        (cluster_indices.getD n emptyIntArray2D) occu j) 0 := by
    rw [sum_list_range_eq_finset]
    refine Finset.sum_congr rfl (fun j hj => ?_)
    rw [interactionTensor]
    rw [getD_list_map_range, if_pos (hflat j (Finset.mem_range.mp hj)),
      sum_list_range_eq_finset]
  rw [hstep, Finset.sum_comm, Finset.sum_div]
  refine Finset.sum_congr rfl (fun k hk => ?_)
  rw [corrValue, sum_list_range_eq_finset, ← Finset.mul_sum, mul_div_assoc]

/-- C3: when the evaluator's flattened interaction tensors are derived from
the correlation tensors by coefficient-weighted summation of basis rows, the
sum over all slots of `interactions_from_occupancy` equals the dot product of
`correlations_from_occupancy` with the coefficient vector, plus the offset
(under the well-formedness preconditions: valid disjoint slot layouts, a
coefficient vector of the right length with no constant-term entry, and
in-range flattened tensor indices). -/
theorem c3_energy_identity (ev : ClusterSpaceEvaluator) (occu : List Nat)
    (offset : ℚ) (coeffs : List ℚ) (cluster_indices : List IntArray2D)
    (hnc : 0 < ev.num_corr)
    (hno : 0 < ev.num_orbits)
    (hc0 : coeffs.getD 0 0 = 0)
    (hclen : coeffs.length = ev.num_corr)
    (hcpw : (corrSlots ev).Pairwise (fun a b => a ≠ b))
    (hcb : ∀ s ∈ corrSlots ev, s < ev.num_corr)
    (hcnz : ∀ s ∈ corrSlots ev, 1 ≤ s)
    (hipw : (interactionSlots ev).Pairwise (fun a b => a ≠ b))
    (hib : ∀ s ∈ interactionSlots ev, s < ev.num_orbits)
    (hinz : ∀ s ∈ interactionSlots ev, 1 ≤ s)
    (hder : ev.cluster_interactions
      = ev.data.map (fun o => interactionTensor o coeffs))
    (hflat : ∀ n, n < ev.size →
      ∀ j, j < (cluster_indices.getD n emptyIntArray2D).size_r →
      flatIndex (ev.data.getD n emptyOrbit)
          (cluster_indices.getD n emptyIntArray2D) occu j
        < (ev.data.getD n emptyOrbit).correlation_tensors.size_c) :
    (interactions_from_occupancy ev occu offset cluster_indices).sum
      = dotProduct (correlations_from_occupancy ev occu cluster_indices) coeffs
        + offset := by
  rw [interactions_from_occupancy, interactionsWithOrbitOrder]
  rw [sum_applyWrites _ _
    (pairwise_of_fst_map _ _
      (interactionWrites_fst_flatten ev occu cluster_indices) hipw)
    (fun w hw => by
      rw [List.length_set, List.length_replicate]
      exact hib _ (fst_mem_interactionSlots_of_writes ev occu cluster_indices w hw))
    (fun w hw => by
      rw [getD_set_ne _ _ _ _ _
          (by have := hinz _ (fst_mem_interactionSlots_of_writes ev occu
            cluster_indices w hw); omega),
        getD_list_replicate _ _ _ _
          (hib _ (fst_mem_interactionSlots_of_writes ev occu cluster_indices w hw))])]
  have hinit : ((List.replicate ev.num_orbits (0 : ℚ)).set 0 offset).sum = offset := by
    rw [sum_list_set _ _ _ (by simpa using hno),
      getD_list_replicate _ _ _ _ hno, List.sum_replicate]
    simp
  rw [hinit, interactionWrites_snd_sum]
  rw [Finset.sum_congr rfl (fun n hn =>
    interactionValue_derived ev occu coeffs cluster_indices n
      (Finset.mem_range.mp hn) hder (hflat n (Finset.mem_range.mp hn)))]
  rw [dotProduct, correlations_from_occupancy, correlationsWithOrbitOrder]
  rw [sum_zipWith_mul_applyWrites _ _ _
    (pairwise_of_fst_map _ _
      (corrWrites_fst_flatten ev occu cluster_indices) hcpw)
    (fun w hw => by
      rw [List.length_set, List.length_replicate]
      exact hcb _ (fst_mem_corrSlots_of_writes ev occu cluster_indices w hw))
    (fun w hw => by
      rw [getD_set_ne _ _ _ _ _
          (by have := hcnz _ (fst_mem_corrSlots_of_writes ev occu
            cluster_indices w hw); omega),
        getD_list_replicate _ _ _ _
          (hcb _ (fst_mem_corrSlots_of_writes ev occu cluster_indices w hw))])
    (by rw [List.length_set, List.length_replicate, hclen])]
  have hz : (List.zipWith (fun a b => a * b)
      ((List.replicate ev.num_corr (0 : ℚ)).set 0 1) coeffs).sum = 0 := by
    rw [zipWith_mul_set_left _ _ _ _ (by rw [List.length_replicate, hclen]),
      sum_list_set _ _ _ (by
        rw [List.length_zipWith, List.length_replicate, hclen, Nat.min_self]
        exact hnc),
      getD_zipWith_of (fun a b => a * b) (by ring) _ _ _
        (by rw [List.length_replicate, hclen]),
      sum_zipWith_zero_mul, getD_list_replicate _ _ _ _ hnc, one_mul, hc0]
    ring
  rw [hz, corrWrites_dot_sum ev occu coeffs cluster_indices]
  have hcomm : (∑ n ∈ Finset.range ev.size,
      ∑ k ∈ Finset.range (ev.data.getD n emptyOrbit).correlation_tensors.size_r,
        coeffs.getD ((ev.data.getD n emptyOrbit).bit_id + k) 0
          * corrValue (ev.data.getD n emptyOrbit)
              (cluster_indices.getD n emptyIntArray2D) occu k)
      = ∑ n ∈ Finset.range ev.size,
      ∑ k ∈ Finset.range (ev.data.getD n emptyOrbit).correlation_tensors.size_r,
        corrValue (ev.data.getD n emptyOrbit)
            (cluster_indices.getD n emptyIntArray2D) occu k
          * coeffs.getD ((ev.data.getD n emptyOrbit).bit_id + k) 0 :=
    Finset.sum_congr rfl (fun n _ =>
      Finset.sum_congr rfl (fun k _ => mul_comm _ _))
  rw [hcomm]
  ring

/-- Witness for C3 at the derived-tensor one-orbit instance. -/
theorem c3_energy_identity_witness :
    (interactions_from_occupancy exEvaluatorDerived [0, 1, 1, 0] 7 [exTable]).sum
      = dotProduct
          (correlations_from_occupancy exEvaluatorDerived [0, 1, 1, 0] [exTable])
          exCoeffs + 7 :=
  c3_energy_identity exEvaluatorDerived [0, 1, 1, 0] 7 exCoeffs [exTable]
    (by decide) (by decide) (by decide) (by decide) (by decide) (by decide)
    (by decide) (by decide) (by decide) (by decide) rfl (by decide)

/-- Witness for C1: the general slot formula applied at the concrete
one-orbit instance (orbit 0, bit combination 0). -/
theorem c1_correlation_slot_formula_witness :
    (correlations_from_occupancy exEvaluator [0, 1, 1, 0] [exTable]).getD
        (exOrbit.bit_id + 0) 0
      = (((List.range exTable.size_r).map
          (fun j => exOrbit.correlation_tensors.data.getD
            (0 * exOrbit.correlation_tensors.size_c
              + flatIndex exOrbit exTable [0, 1, 1, 0] j) 0)).sum)
        / (exTable.size_r : ℚ) :=
  c1_correlation_slot_formula.1 exEvaluator [0, 1, 1, 0] [exTable] 0 0
    (by decide) (by decide) (by decide) (by decide)

end Smol
